import Mathlib

/-!
Verification development for `cam_service/gui_camera_server.py` of the
retrux-shelf-eye repository.

Paths are modelled as lists of characters with POSIX separator semantics
(`os.path.normpath`, `os.path.join`, `os.path.basename` as implemented by
CPython's `posixpath`).  Worker `run` methods are modelled as functions
producing a trace of events (log emissions, Qt signal emissions, filesystem
operations, service and subprocess interactions); external failure points
(service `stop()`/`join()`/`start()` raising, `Popen` raising) are supplied
as explicit parameters, and the `try/except/finally` structure of each `run`
is mirrored by explicit handling of an optional error value.
-/

namespace RetruxShelfEye

/-- POSIX path separator. -/
def sep : Char := '/'

/-- The component "." used by `posixpath.normpath`. -/
def dotC : List Char := ['.']

/-- The component ".." used by `posixpath.normpath`. -/
def dotdotC : List Char := ['.', '.']

/-- The canonical device-folder name, the literal "devices" of
`get_devices_dir_normalized` and `CameraServerWorker.__init__`. -/
def devicesC : List Char := "devices".data

/-- Model of Python's `path.split('/')`: split a character list at every
separator, keeping empty components. -/
def splitSep : List Char → List (List Char)
  | [] => [[]]
  | c :: cs =>
    let r := splitSep cs
    if c = sep then [] :: r else (c :: r.headD []) :: r.tail

/-- Model of Python's `'/'.join(components)`. -/
def joinComps : List (List Char) → List Char
  | [] => []
  | [a] => a
  | a :: b :: rest => a ++ sep :: joinComps (b :: rest)

/-- The `initial_slashes` computation of `posixpath.normpath`: 0 for a
relative path, 2 when the path starts with exactly two slashes, else 1. -/
def initialSlashes (p : List Char) : Nat :=
  if p.take 1 = [sep] then
    if p.take 2 = [sep, sep] ∧ ¬ p.take 3 = [sep, sep, sep] then 2 else 1
  else 0

/-- One iteration of the component loop of `posixpath.normpath`: skip empty
and "." components, pop on ".." when possible, push otherwise. -/
def npStep (abs : Bool) (acc : List (List Char)) (comp : List Char) :
    List (List Char) :=
  if comp = [] ∨ comp = dotC then acc
  else if comp ≠ dotdotC ∨ (abs = false ∧ acc = []) ∨
          (acc ≠ [] ∧ acc.getLast? = some dotdotC) then
    acc ++ [comp]
  else if acc ≠ [] then acc.dropLast
  else acc

/-- Model of `posixpath.normpath` (the `os.path.normpath` used at
`gui_camera_server.py:70` and `gui_camera_server.py:547`). -/
def normpath (p : List Char) : List Char :=
  if p = [] then dotC
  else
    let i := initialSlashes p
    let comps := (splitSep p).foldl (npStep (i != 0)) []
    let r := List.replicate i sep ++ joinComps comps
    if r = [] then dotC else r

/-- Model of `posixpath.join` restricted to two arguments, as used by
`os.path.join(root_path, "devices")` and friends. -/
def joinP (a b : List Char) : List Char :=
  if b.take 1 = [sep] then b
  else if a = [] ∨ a.getLast? = some sep then a ++ b
  else a ++ sep :: b

/-- Model of `posixpath.basename`: the characters after the last separator. -/
def basenameL (p : List Char) : List Char :=
  (p.reverse.takeWhile (fun c => c != sep)).reverse

/-- ASCII lowercasing of one character, the relevant fragment of Python's
`str.lower` for the paths involved. -/
def lowerChar (c : Char) : Char :=
  if 'A' ≤ c ∧ c ≤ 'Z' then Char.ofNat (c.toNat + 32) else c

/-- Model of `str.lower` on a path. -/
def lowerL (s : List Char) : List Char := s.map lowerChar

/-- Whether a path is absolute (`posixpath.isabs`). -/
def isAbs (p : List Char) : Bool := decide (p.take 1 = [sep])

/-- Model of `MainWindow.get_devices_dir_normalized`
(`gui_camera_server.py:545-551`) applied to the already-stripped text, which
is also exactly the normalization done by `CameraServerWorker.__init__`
(`gui_camera_server.py:70-72`): `os.path.normpath`, then append the
`devices` segment unless the basename is already "devices" case-insensitively. -/
def get_devices_dir_normalized (rootPath : List Char) : List Char :=
  let q := normpath rootPath
  if lowerL (basenameL q) = devicesC then q else joinP q devicesC

example : normpath "a/b/../c".data = "a/c".data := by decide
example : normpath "".data = ".".data := by decide
example : normpath "//a".data = "//a".data := by decide
example : normpath "///a/".data = "/a".data := by decide
example : normpath "../../x".data = "../../x".data := by decide
example : normpath "/..".data = "/".data := by decide
example : normpath "a//b/./".data = "a/b".data := by decide
example : get_devices_dir_normalized "a".data = "a/devices".data := by decide
example : get_devices_dir_normalized "a/DEVICES".data = "a/DEVICES".data := by
  decide
example : get_devices_dir_normalized ".".data = "./devices".data := by decide
example :
    get_devices_dir_normalized "./devices".data = "devices".data := by decide

/-- Model of `project_root_dir()` joined paths are not needed; workers take
the project root as a parameter.  An abstract Python exception: the message
(`str(e)`) and, separately, the full formatted traceback that
`traceback.format_exception(e)` would yield for it. -/
structure PyErr where
  msg : List Char
  tb : List Char
deriving DecidableEq

/-- The two modes of `ShelfScanWorker` (`assert mode in ("setup", "service")`). -/
inductive Mode
  | setup
  | service
deriving DecidableEq

/-- Model of `BackgroundCameraService(camera_str, camera_id, latest_frame_file)`
as constructed by `CameraServerWorker.run`: `label` is the first constructor
argument (the zero-padded string, read back as `svc.camera_id` in log lines),
`idx` the camera index, `outFile` the per-camera frame path. -/
structure BgSvc where
  label : List Char
  idx : Nat
  outFile : List Char
deriving DecidableEq

/-- One log line, one constructor per `emit` site in the source, carrying the
formatted payload.  `fatalTraceback` is the cooperative workers' handler line
`"FATAL ERROR:\n" + "".join(traceback.format_exception(e))` (it carries the
full diagnostic traceback); `errRunning` / `errDisplay` are the tool workers'
handler lines, which interpolate only `str(e)`. -/
inductive LogMsg
  | bgSystem
  | preparingDir (dir : List Char)
  | searching
  | noCameras
  | foundCameras (n : Nat)
  | startingServices
  | startingCamera (label : List Char)
  | allRunning
  | stoppingAll
  | errorStop (label : List Char) (e : PyErr)
  | errorJoin (label : List Char) (e : PyErr)
  | allFinished
  | fatalTraceback (e : PyErr)
  | imageMode
  | devicesFolder (dir : List Char)
  | noImages
  | usingImages (n : Nat)
  | imageName (name : List Char)
  | imageStopped
  | notFound (path : List Char)
  | execInterp (py : List Char)
  | command (cmd : List (List Char))
  | shelfStarted (m : Mode) (pid : Nat)
  | procLine (line : List Char)
  | shelfExited (m : Mode) (code : Int)
  | errRunning (m : Mode) (e : PyErr)
  | execDisplay (cmd : List (List Char))
  | displayStarted (pid : Nat)
  | displayExited (code : Int)
  | errDisplay (e : PyErr)
deriving DecidableEq

/-- One observable action of a worker `run`: signal emissions, log emissions,
filesystem operations, capture-service calls, sleeps, subprocess operations,
and the `QMessageBox.critical` call of `CameraServerWorker`'s handler. -/
inductive Ev
  | log (m : LogMsg)
  | runningChanged (b : Bool)
  | finished
  | modeChanged (m : Mode)
  | rmtree (p : List Char)
  | makedirs (p : List Char)
  | svcConstruct (idx : Nat) (label : List Char) (outFile : List Char)
  | svcStart (idx : Nat) (label : List Char)
  | svcStop (idx : Nat) (label : List Char)
  | svcJoin (idx : Nat) (label : List Char)
  | sleepStagger
  | sleepPoll
  | spawn (cmd : List (List Char)) (pid : Nat)
  | procWait (pid : Nat)
  | msgBoxCritical (e : PyErr)
deriving DecidableEq

/-- Decimal digits of a camera index, Python's `str(camera_id)`. -/
def natStr (n : Nat) : List Char := Nat.toDigits 10 n

/-- Python's `str(camera_id).zfill(3)`. -/
def zfill3 (s : List Char) : List Char :=
  List.replicate (3 - s.length) '0' ++ s

/-- The per-camera frame file name `f"camera_{camera_str}_frame.jpg"`. -/
def frameFileName (cid : Nat) : List Char :=
  "camera_".data ++ zfill3 (natStr cid) ++ "_frame.jpg".data

/-- The service object built for one camera index in
`CameraServerWorker.run` (lines 107-113). -/
def mkSvc (root : List Char) (cid : Nat) : BgSvc :=
  { label := zfill3 (natStr cid), idx := cid,
    outFile := joinP root (frameFileName cid) }

/-- Failure-injection parameters for the external collaborator calls made by
`CameraServerWorker.run`, keyed by the position of the service in
`running_services`: whether `svc.start()`, `svc.stop()`, or
`svc.thread.join(timeout=5)` raises, and whether the service has a non-None
joinable `thread` attribute. -/
structure CamFaults where
  startErr : Nat → Option PyErr
  stopErr : Nat → Option PyErr
  hasThread : Nat → Bool
  joinErr : Nat → Option PyErr

/-- The start loop of `CameraServerWorker.run` (lines 115-118): for each
service in order, emit the "Starting ..." line, call `start()` and sleep the
staggering delay.  If `start()` raises, the loop aborts with that error (it
is handled by the worker boundary, not per instance). -/
def startLoop (f : Nat → Option PyErr) (i : Nat) :
    List BgSvc → List Ev × Option PyErr
  | [] => ([], none)
  | s :: rest =>
    match f i with
    | some e => ([Ev.log (LogMsg.startingCamera s.label)], some e)
    | none =>
      let r := startLoop f (i + 1) rest
      (Ev.log (LogMsg.startingCamera s.label) :: Ev.svcStart s.idx s.label ::
        Ev.sleepStagger :: r.1, r.2)

/-- The stop loop of `CameraServerWorker.run` (lines 128-132): each
`svc.stop()` is issued; a raising `stop()` is caught and logged per instance
and the loop continues. -/
def stopLoop (f : Nat → Option PyErr) (i : Nat) : List BgSvc → List Ev
  | [] => []
  | s :: rest =>
    Ev.svcStop s.idx s.label ::
      ((match f i with
        | some e => [Ev.log (LogMsg.errorStop s.label e)]
        | none => []) ++ stopLoop f (i + 1) rest)

/-- The join loop of `CameraServerWorker.run` (lines 134-139): each service
gets one join attempt; `join` is called only when the service has a thread,
a raising `join` is caught and logged per instance and the loop continues. -/
def joinLoop (hasT : Nat → Bool) (f : Nat → Option PyErr) (i : Nat) :
    List BgSvc → List Ev
  | [] => []
  | s :: rest =>
    Ev.svcJoin s.idx s.label ::
      ((if hasT i then
          match f i with
          | some e => [Ev.log (LogMsg.errorJoin s.label e)]
          | none => []
        else []) ++ joinLoop hasT f (i + 1) rest)

/-- The `try` body of `CameraServerWorker.run` (lines 86-141): the trace of
events it performs together with the unhandled error it raises, if any.
`rootArg` is the constructor argument, normalized exactly as
`CameraServerWorker.__init__` does; `polls` is how many times the
stop-polling loop sleeps before observing the stop event. -/
def camRunBody (rootArg : List Char) (S : List Nat) (f : CamFaults)
    (polls : Nat) : List Ev × Option PyErr :=
  let root := get_devices_dir_normalized rootArg
  let pre := [Ev.log LogMsg.bgSystem, Ev.runningChanged true,
    Ev.log (LogMsg.preparingDir root), Ev.rmtree root, Ev.makedirs root,
    Ev.log LogMsg.searching]
  if S = [] then (pre ++ [Ev.log LogMsg.noCameras], none)
  else
    let svcs := S.map (mkSvc root)
    let header := pre ++ [Ev.log (LogMsg.foundCameras S.length),
      Ev.log LogMsg.startingServices] ++
      svcs.map (fun s => Ev.svcConstruct s.idx s.label s.outFile)
    let started := startLoop f.startErr 0 svcs
    match started.2 with
    | some e => (header ++ started.1, some e)
    | none =>
      (header ++ started.1 ++ [Ev.log LogMsg.allRunning] ++
        List.replicate polls Ev.sleepPoll ++ [Ev.log LogMsg.stoppingAll] ++
        stopLoop f.stopErr 0 svcs ++ joinLoop f.hasThread f.joinErr 0 svcs ++
        [Ev.log LogMsg.allFinished], none)

/-- `CameraServerWorker.run` (lines 85-148): the `try` body, then the
`except` handler (FATAL ERROR log with the full traceback plus the
`QMessageBox.critical` call) when the body raised, then the `finally` block
(`running_changed(False)` and the `finished` signal). -/
def camRun (rootArg : List Char) (S : List Nat) (f : CamFaults)
    (polls : Nat) : List Ev :=
  let b := camRunBody rootArg S f polls
  b.1 ++
    (match b.2 with
     | some e => [Ev.log (LogMsg.fatalTraceback e), Ev.msgBoxCritical e]
     | none => []) ++
    [Ev.runningChanged false, Ev.finished]

/-- `ImageSourceWorker.run` (lines 172-193): emits only log lines and
signals, polls the stop flag (`polls` sleeps), touches no files.  Its body
performs no failable operation, so the embedded body is total and the
`except` branch is unreachable in the model. -/
def imgRun (dir : List Char) (sel : List (List Char)) (polls : Nat) :
    List Ev :=
  [Ev.runningChanged true, Ev.log LogMsg.imageMode,
    Ev.log (LogMsg.devicesFolder dir)] ++
  (if sel = [] then [Ev.log LogMsg.noImages]
   else Ev.log (LogMsg.usingImages sel.length) ::
     sel.map (fun p => Ev.log (LogMsg.imageName (basenameL p)))) ++
  List.replicate polls Ev.sleepPoll ++
  [Ev.log LogMsg.imageStopped] ++
  [Ev.runningChanged false, Ev.finished]

/-- Python's `line.rstrip()` for the whitespace appearing in streamed
subprocess output. -/
def rstripL (s : List Char) : List Char :=
  (s.reverse.dropWhile (fun c =>
    c = ' ' ∨ c = '\n' ∨ c = '\t' ∨ c = '\r')).reverse

/-- The external behaviour surrounding one `ShelfScanWorker.run`:
whether `os.path.isfile(self.shelf_scan_path)` holds, the result of
`subprocess.Popen` (the pid, or the exception it raises), the sequence of
lines `readline` yields before EOF, the process exit code, and the value of
the `self._stop` flag as observed at each loop iteration. -/
structure ShelfEnv where
  fileExists : Bool
  spawnRes : Except PyErr Nat
  lines : List (List Char)
  exitCode : Int
  stopFlag : Nat → Bool

/-- The path `os.path.join(project_root, "product_scan", "shelf_scan.py")`. -/
def shelfScanPath (projectRoot : List Char) : List Char :=
  joinP (joinP projectRoot "product_scan".data) "shelf_scan.py".data

/-- The command list `[python_exe, "-u", shelf_scan_path, mode]`. -/
def shelfCmd (py path : List Char) (m : Mode) : List (List Char) :=
  [py, "-u".data, path,
    match m with | Mode.setup => "setup".data | Mode.service => "service".data]

/-- The reader loop of `ShelfScanWorker.run` (lines 251-256): for each line
until EOF, break if the stop flag is set in "service" mode, break on an
empty line, otherwise forward the rstripped line.  The index is the loop
iteration number at which the stop flag is sampled. -/
def readLines (m : Mode) (stopFlag : Nat → Bool) (i : Nat) :
    List (List Char) → List Ev
  | [] => []
  | l :: rest =>
    if stopFlag i = true ∧ m = Mode.service then []
    else if l = [] then []
    else Ev.log (LogMsg.procLine (rstripL l)) :: readLines m stopFlag (i + 1) rest

/-- `ShelfScanWorker.run` (lines 215-263): missing-script early return, the
two announce log lines plus `mode_changed`, `Popen` (whose exception is
caught by the worker boundary and logged with `str(e)` only), the started
line, the reader loop, `wait()` and the exit-code line, and the `finally`
`finished` signal. -/
def shelfRun (projectRoot py : List Char) (m : Mode) (env : ShelfEnv) :
    List Ev :=
  let path := shelfScanPath projectRoot
  (if env.fileExists = false then [Ev.log (LogMsg.notFound path)]
   else
     let cmd := shelfCmd py path m
     [Ev.log (LogMsg.execInterp py), Ev.log (LogMsg.command cmd),
       Ev.modeChanged m] ++
     match env.spawnRes with
     | Except.error e => [Ev.log (LogMsg.errRunning m e)]
     | Except.ok pid =>
       [Ev.spawn cmd pid, Ev.log (LogMsg.shelfStarted m pid)] ++
       readLines m env.stopFlag 0 env.lines ++
       [Ev.procWait pid, Ev.log (LogMsg.shelfExited m env.exitCode)]) ++
  [Ev.finished]

/-- The external behaviour surrounding one `CamDisplayWorker.run`. -/
structure DispEnv where
  fileExists : Bool
  spawnRes : Except PyErr Nat
  lines : List (List Char)
  exitCode : Int

/-- The path `os.path.join(project_root, "cam_display", "display_camera.py")`. -/
def displayPath (projectRoot : List Char) : List Char :=
  joinP (joinP projectRoot "cam_display".data) "display_camera.py".data

/-- The command list
`[python_exe, "-u", display_path, "--root-dir", root_dir, "--title", title]`. -/
def displayCmd (py path rootDir title : List Char) : List (List Char) :=
  [py, "-u".data, path, "--root-dir".data, rootDir, "--title".data, title]

/-- The reader loop of `CamDisplayWorker.run` (lines 338-341): no stop-flag
check, break on empty line, forward rstripped lines. -/
def readLinesD : List (List Char) → List Ev
  | [] => []
  | l :: rest =>
    if l = [] then []
    else Ev.log (LogMsg.procLine (rstripL l)) :: readLinesD rest

/-- `CamDisplayWorker.run` (lines 304-348). -/
def displayRun (projectRoot py rootDir title : List Char) (env : DispEnv) :
    List Ev :=
  let path := displayPath projectRoot
  (if env.fileExists = false then [Ev.log (LogMsg.notFound path)]
   else
     let cmd := displayCmd py path rootDir title
     [Ev.log (LogMsg.execDisplay cmd)] ++
     match env.spawnRes with
     | Except.error e => [Ev.log (LogMsg.errDisplay e)]
     | Except.ok pid =>
       [Ev.spawn cmd pid, Ev.log (LogMsg.displayStarted pid)] ++
       readLinesD env.lines ++
       [Ev.procWait pid, Ev.log (LogMsg.displayExited env.exitCode)]) ++
  [Ev.finished]

/-- Model of `find_jpg_images`'s view of the filesystem: whether
`devices_dir` is a directory, and the entry names `os.listdir` yields. -/
structure DirFs where
  isDir : Bool
  entries : List (List Char)

/-- Lexicographic comparison of strings by character code, Python's `<=` on
`str` restricted to the entry names involved; `sorted` sorts ascending with
respect to it. -/
def lexLe : List Char → List Char → Bool
  | [], _ => true
  | _ :: _, [] => false
  | a :: as, b :: bs => if a < b then true else if a = b then lexLe as bs else false

/-- The test `name.lower().endswith(".jpg")`. -/
def isJpgName (name : List Char) : Bool :=
  ".jpg".data.isSuffixOf (lowerL name)

/-- Model of `find_jpg_images` (`gui_camera_server.py:49-57`): empty list if
`devices_dir` is not a directory, else the `os.path.join(devices_dir, name)`
of each name in `sorted(os.listdir(devices_dir))` whose lowercase form ends
in ".jpg". -/
def find_jpg_images (fs : DirFs) (devicesDir : List Char) :
    List (List Char) :=
  if fs.isDir = false then []
  else
    ((fs.entries.insertionSort (fun a b => lexLe a b = true)).filter
        (fun n => isJpgName n)).map
      (fun n => joinP devicesDir n)

example :
    find_jpg_images ⟨true, ["b.JPG".data, "a.jpg".data, "c.txt".data]⟩
      "/d".data = ["/d/a.jpg".data, "/d/b.JPG".data] := by decide

/-- The three worker slots of `MainWindow`: `active_worker` (source),
`shelf_worker` (scan tool), `display_worker` (display tool). -/
inductive Slot
  | source
  | shelf
  | display
deriving DecidableEq

/-- A worker object as seen by the slot logic: its identity (capturing
object construction), which slot it was built for, and whether its thread
`isRunning()`. -/
structure WorkerRec where
  id : Nat
  slot : Slot
  running : Bool
deriving DecidableEq

/-- The slot-relevant state of `MainWindow`: the three holder fields, the
ghost list of worker objects that have been replaced in a holder (in Python
they still exist but are no longer referenced by the slot), and a counter of
constructed workers (fresh ids witness object construction). -/
structure GuiState where
  activeWorker : Option WorkerRec
  shelfWorker : Option WorkerRec
  displayWorker : Option WorkerRec
  retired : List WorkerRec
  nextId : Nat
deriving DecidableEq

/-- Outcome reported to the caller by a start method: the `SlotBusy`
message box ("... already running"), a validation rejection (no images /
no cameras warning), or a started worker. -/
inductive StartResult
  | slotBusy
  | rejected
  | started (id : Nat)
deriving DecidableEq

/-- The guard `worker and worker.isRunning()`. -/
def isRunningOpt : Option WorkerRec → Bool
  | some w => w.running
  | none => false

/-- Replacing the worker held in a slot moves the old object (if any) to the
ghost `retired` list. -/
def retireOpt (o : Option WorkerRec) (rs : List WorkerRec) : List WorkerRec :=
  rs ++ o.toList

/-- `MainWindow.start_source` (lines 559-602): reject with `SlotBusy` while
the source worker is running, reject on invalid selection, else construct a
fresh worker, store it in the slot, and start it. -/
def start_source (st : GuiState) (selectionOk : Bool) :
    GuiState × StartResult :=
  if isRunningOpt st.activeWorker = true then (st, StartResult.slotBusy)
  else if selectionOk = false then (st, StartResult.rejected)
  else
    ({ st with
        activeWorker := some ⟨st.nextId, Slot.source, true⟩,
        retired := retireOpt st.activeWorker st.retired,
        nextId := st.nextId + 1 }, StartResult.started st.nextId)

/-- `MainWindow.run_shelf_setup` (lines 622-632): same slot guard on
`shelf_worker` ("Another shelf_scan is running."). -/
def run_shelf_setup (st : GuiState) : GuiState × StartResult :=
  if isRunningOpt st.shelfWorker = true then (st, StartResult.slotBusy)
  else
    ({ st with
        shelfWorker := some ⟨st.nextId, Slot.shelf, true⟩,
        retired := retireOpt st.shelfWorker st.retired,
        nextId := st.nextId + 1 }, StartResult.started st.nextId)

/-- `MainWindow.start_shelf_service` (lines 634-645): same slot guard on
`shelf_worker` ("Shelf service already running."). -/
def start_shelf_service (st : GuiState) : GuiState × StartResult :=
  if isRunningOpt st.shelfWorker = true then (st, StartResult.slotBusy)
  else
    ({ st with
        shelfWorker := some ⟨st.nextId, Slot.shelf, true⟩,
        retired := retireOpt st.shelfWorker st.retired,
        nextId := st.nextId + 1 }, StartResult.started st.nextId)

/-- `MainWindow.start_cam_display` (lines 655-677): slot guard on
`display_worker` ("Cam display already running."); the `makedirs` for
`product_visual` happens only after the guard passes. -/
def start_cam_display (st : GuiState) : GuiState × StartResult :=
  if isRunningOpt st.displayWorker = true then (st, StartResult.slotBusy)
  else
    ({ st with
        displayWorker := some ⟨st.nextId, Slot.display, true⟩,
        retired := retireOpt st.displayWorker st.retired,
        nextId := st.nextId + 1 }, StartResult.started st.nextId)

/-- A worker's thread finishing flips its `isRunning()` to false (observed
through the `finished` signal callbacks). -/
def setFinished : Option WorkerRec → Option WorkerRec
  | some w => some { w with running := false }
  | none => none

/-- The slot-relevant operations on `MainWindow` state: the four start
methods and the three per-slot completion events.  Stop requests do not
change `isRunning()` directly, so they are identities here. -/
inductive GuiOp
  | startSrc (selectionOk : Bool)
  | shelfSetup
  | shelfService
  | camDisplay
  | srcFinished
  | shelfFinished
  | displayFinished

/-- State transition of one operation. -/
def stepGui (st : GuiState) : GuiOp → GuiState
  | GuiOp.startSrc ok => (start_source st ok).1
  | GuiOp.shelfSetup => (run_shelf_setup st).1
  | GuiOp.shelfService => (start_shelf_service st).1
  | GuiOp.camDisplay => (start_cam_display st).1
  | GuiOp.srcFinished => { st with activeWorker := setFinished st.activeWorker }
  | GuiOp.shelfFinished => { st with shelfWorker := setFinished st.shelfWorker }
  | GuiOp.displayFinished =>
    { st with displayWorker := setFinished st.displayWorker }

/-- Every worker object the state knows about. -/
def allWorkers (st : GuiState) : List WorkerRec :=
  st.activeWorker.toList ++ st.shelfWorker.toList ++
    st.displayWorker.toList ++ st.retired

/-- How many worker objects assigned to slot `s` are currently running. -/
def runningInSlot (st : GuiState) (s : Slot) : Nat :=
  (allWorkers st).countP (fun w => w.running && w.slot == s)

/-- The slot field holds a worker of the matching slot, or nothing. -/
def slotOkB : Option WorkerRec → Slot → Bool
  | some w, s => w.slot == s
  | none, _ => true

/-- Invariant of the slot logic: replaced workers are no longer running, and
each holder field holds a worker of its own slot. -/
def GuiInv (st : GuiState) : Prop :=
  st.retired.all (fun w => !w.running) = true ∧
  slotOkB st.activeWorker Slot.source = true ∧
  slotOkB st.shelfWorker Slot.shelf = true ∧
  slotOkB st.displayWorker Slot.display = true

/-- The camera index carried by a `svc.start()` call event. -/
def startIdxOf : Ev → Option Nat
  | Ev.svcStart i _ => some i
  | _ => none

/-- The camera index carried by a `svc.stop()` call event. -/
def stopIdxOf : Ev → Option Nat
  | Ev.svcStop i _ => some i
  | _ => none

/-- The camera index carried by a join-attempt event. -/
def joinIdxOf : Ev → Option Nat
  | Ev.svcJoin i _ => some i
  | _ => none

/-- The camera index carried by a service-construction event. -/
def constructIdxOf : Ev → Option Nat
  | Ev.svcConstruct i _ _ => some i
  | _ => none

/-- The statement of claim C1 at one tuple of inputs: along the trace of
`CameraServerWorker.run`, the constructed services, the `start()` calls, the
`stop()` calls and the join attempts each list exactly the selected camera
indices in selection order, and the trace splits into a part holding all the
stop calls (and no join attempt) followed by a part holding all the join
attempts (and no stop call). -/
def C1Prop (rootArg : List Char) (S : List Nat) (f : CamFaults)
    (polls : Nat) : Prop :=
  (camRun rootArg S f polls).filterMap constructIdxOf = S ∧
  (camRun rootArg S f polls).filterMap startIdxOf = S ∧
  (camRun rootArg S f polls).filterMap stopIdxOf = S ∧
  (camRun rootArg S f polls).filterMap joinIdxOf = S ∧
  ∃ a b, camRun rootArg S f polls = a ++ b ∧
    a.filterMap stopIdxOf = S ∧ a.filterMap joinIdxOf = [] ∧
    b.filterMap stopIdxOf = [] ∧ b.filterMap joinIdxOf = S

/-- Events a passive worker is allowed to produce: log lines, the running /
finished signals, and stop-flag polling sleeps — in particular no
filesystem clear, recreate or write and no process or service operation. -/
def benignEv : Ev → Bool
  | Ev.log _ => true
  | Ev.runningChanged _ => true
  | Ev.finished => true
  | Ev.sleepPoll => true
  | _ => false

/-- The lines forwarded verbatim (rstripped) to the observer in a trace. -/
def forwardedLines (tr : List Ev) : List (List Char) :=
  tr.filterMap (fun e =>
    match e with
    | Ev.log (LogMsg.procLine s) => some s
    | _ => none)

/-- The `finished` signal event. -/
def isFinishedEv : Ev → Bool
  | Ev.finished => true
  | _ => false

/-- A handler log line that carries the full diagnostic traceback (the
"FATAL ERROR" line of the cooperative workers). -/
def isTracebackLog : Ev → Bool
  | Ev.log (LogMsg.fatalTraceback _) => true
  | _ => false

/-- How many times a trace emits the `finished` signal. -/
def finishedCount (tr : List Ev) : Nat := tr.countP isFinishedEv

/-- The statement of claim C4, amended: every one of the four workers emits
the `finished` signal exactly once per run and as its very last action, on
every execution path (normal completion, early return, or an injected
fault); unhandled faults are caught at the worker boundary and reported via
a handler log line, and the run functions are total (no fault propagates out
of `run`).  The `CameraServerWorker` handler logs the full diagnostic
traceback (and shows the message box); the tool workers' handlers log only
the error message. -/
def C4Prop : Prop :=
  (∀ (rootArg : List Char) (S : List Nat) (f : CamFaults) (polls : Nat),
    finishedCount (camRun rootArg S f polls) = 1 ∧
    (camRun rootArg S f polls).getLast? = some Ev.finished) ∧
  (∀ (dir : List Char) (sel : List (List Char)) (polls : Nat),
    finishedCount (imgRun dir sel polls) = 1 ∧
    (imgRun dir sel polls).getLast? = some Ev.finished) ∧
  (∀ (projectRoot py : List Char) (m : Mode) (env : ShelfEnv),
    finishedCount (shelfRun projectRoot py m env) = 1 ∧
    (shelfRun projectRoot py m env).getLast? = some Ev.finished) ∧
  (∀ (projectRoot py rootDir title : List Char) (env : DispEnv),
    finishedCount (displayRun projectRoot py rootDir title env) = 1 ∧
    (displayRun projectRoot py rootDir title env).getLast? =
      some Ev.finished) ∧
  (∀ (rootArg : List Char) (S : List Nat) (f : CamFaults) (polls : Nat)
      (e : PyErr), (camRunBody rootArg S f polls).2 = some e →
    Ev.log (LogMsg.fatalTraceback e) ∈ camRun rootArg S f polls ∧
    Ev.msgBoxCritical e ∈ camRun rootArg S f polls) ∧
  (∀ (projectRoot py : List Char) (m : Mode) (env : ShelfEnv) (e : PyErr),
    env.fileExists = true → env.spawnRes = Except.error e →
    Ev.log (LogMsg.errRunning m e) ∈ shelfRun projectRoot py m env) ∧
  (∀ (projectRoot py rootDir title : List Char) (env : DispEnv) (e : PyErr),
    env.fileExists = true → env.spawnRes = Except.error e →
    Ev.log (LogMsg.errDisplay e) ∈ displayRun projectRoot py rootDir title env)

/-- A path component that `posixpath.normpath`'s loop always pushes:
neither empty, nor ".", nor "..". -/
def cleanComp (c : List Char) : Prop := c ≠ [] ∧ c ≠ dotC ∧ c ≠ dotdotC

/-- The shape of `normpath`'s component list: for an absolute path only
clean components; for a relative path a run of ".." components followed by
clean components. -/
def NormalComps : Bool → List (List Char) → Prop
  | true, L => ∀ c ∈ L, cleanComp c
  | false, L => ∃ k M, L = List.replicate k dotdotC ++ M ∧ ∀ c ∈ M, cleanComp c

/-- The component list computed by `normpath` for a path. -/
def npFold (p : List Char) : List (List Char) :=
  (splitSep p).foldl (npStep (initialSlashes p != 0)) []

theorem startLoop_clean (f : Nat → Option PyErr) (h : ∀ i, f i = none) :
    ∀ (l : List BgSvc) (i : Nat),
      startLoop f i l =
        (l.flatMap (fun s => [Ev.log (LogMsg.startingCamera s.label),
          Ev.svcStart s.idx s.label, Ev.sleepStagger]), none) := by
  intro l
  induction l with
  | nil => intro i; rfl
  | cons s rest ih =>
    intro i
    simp only [startLoop, h i, ih (i + 1), List.flatMap_cons]
    rfl

theorem startLoop_clean_fm_start (f : Nat → Option PyErr)
    (h : ∀ i, f i = none) (l : List BgSvc) (i : Nat) :
    (startLoop f i l).1.filterMap startIdxOf = l.map BgSvc.idx := by
  rw [startLoop_clean f h l i]
  induction l with
  | nil => rfl
  | cons s rest ih => simp [List.flatMap_cons, ih, startIdxOf]

theorem startLoop_mem (f : Nat → Option PyErr) :
    ∀ (l : List BgSvc) (i : Nat), ∀ e ∈ (startLoop f i l).1,
      (∃ m, e = Ev.log m) ∨ (∃ k lab, e = Ev.svcStart k lab) ∨
        e = Ev.sleepStagger := by
  intro l
  induction l with
  | nil => intro i e he; simp [startLoop] at he
  | cons s rest ih =>
    intro i e he
    simp only [startLoop] at he
    cases hf : f i with
    | some err =>
      rw [hf] at he
      simp at he
      exact Or.inl ⟨_, he⟩
    | none =>
      rw [hf] at he
      simp at he
      rcases he with h1 | h1 | h1 | h1
      · exact Or.inl ⟨_, h1⟩
      · exact Or.inr (Or.inl ⟨_, _, h1⟩)
      · exact Or.inr (Or.inr h1)
      · exact ih (i + 1) e h1

theorem stopLoop_fm_stop (f : Nat → Option PyErr) :
    ∀ (l : List BgSvc) (i : Nat),
      (stopLoop f i l).filterMap stopIdxOf = l.map BgSvc.idx := by
  intro l
  induction l with
  | nil => intro i; rfl
  | cons s rest ih =>
    intro i
    cases hf : f i <;>
      simp [stopLoop, hf, ih (i + 1), stopIdxOf]

theorem stopLoop_mem (f : Nat → Option PyErr) :
    ∀ (l : List BgSvc) (i : Nat), ∀ e ∈ stopLoop f i l,
      (∃ m, e = Ev.log m) ∨ (∃ k lab, e = Ev.svcStop k lab) := by
  intro l
  induction l with
  | nil => intro i e he; simp [stopLoop] at he
  | cons s rest ih =>
    intro i e he
    cases hf : f i <;> rw [stopLoop, hf] at he <;> simp at he
    · rcases he with h1 | h1
      · exact Or.inr ⟨_, _, h1⟩
      · exact ih (i + 1) e h1
    · rcases he with h1 | h1 | h1
      · exact Or.inr ⟨_, _, h1⟩
      · exact Or.inl ⟨_, h1⟩
      · exact ih (i + 1) e h1

theorem joinLoop_fm_join (hasT : Nat → Bool) (f : Nat → Option PyErr) :
    ∀ (l : List BgSvc) (i : Nat),
      (joinLoop hasT f i l).filterMap joinIdxOf = l.map BgSvc.idx := by
  intro l
  induction l with
  | nil => intro i; rfl
  | cons s rest ih =>
    intro i
    cases ht : hasT i
    · simp [joinLoop, ht, ih (i + 1), joinIdxOf]
    · cases hf : f i <;>
        simp [joinLoop, ht, hf, ih (i + 1), joinIdxOf]

theorem joinLoop_mem (hasT : Nat → Bool) (f : Nat → Option PyErr) :
    ∀ (l : List BgSvc) (i : Nat), ∀ e ∈ joinLoop hasT f i l,
      (∃ m, e = Ev.log m) ∨ (∃ k lab, e = Ev.svcJoin k lab) := by
  intro l
  induction l with
  | nil => intro i e he; simp [joinLoop] at he
  | cons s rest ih =>
    intro i e he
    rw [joinLoop] at he
    cases ht : hasT i
    · rw [ht] at he
      simp at he
      rcases he with h1 | h1
      · exact Or.inr ⟨_, _, h1⟩
      · exact ih (i + 1) e h1
    · rw [ht] at he
      cases hf : f i <;> rw [hf] at he <;> simp at he
      · rcases he with h1 | h1
        · exact Or.inr ⟨_, _, h1⟩
        · exact ih (i + 1) e h1
      · rcases he with h1 | h1 | h1
        · exact Or.inr ⟨_, _, h1⟩
        · exact Or.inl ⟨_, h1⟩
        · exact ih (i + 1) e h1

theorem fm_construct (svcs : List BgSvc) :
    (svcs.map (fun s => Ev.svcConstruct s.idx s.label s.outFile)).filterMap
        constructIdxOf = svcs.map BgSvc.idx := by
  induction svcs with
  | nil => rfl
  | cons s rest ih => simp [ih, constructIdxOf]

theorem map_idx_mkSvc (root : List Char) (S : List Nat) :
    (S.map (mkSvc root)).map BgSvc.idx = S := by
  induction S with
  | nil => rfl
  | cons c cs ih => simp [mkSvc, ih]

theorem fm_nil_of_mem (g : Ev → Option Nat) (l : List Ev)
    (h : ∀ e ∈ l, g e = none) : l.filterMap g = [] :=
  List.filterMap_eq_nil_iff.mpr h

theorem flatStart_fm_start (l : List BgSvc) :
    ((l.flatMap (fun s => [Ev.log (LogMsg.startingCamera s.label),
      Ev.svcStart s.idx s.label, Ev.sleepStagger])).filterMap startIdxOf) =
      l.map BgSvc.idx := by
  induction l with
  | nil => rfl
  | cons s rest ih => simp [List.flatMap_cons, ih, startIdxOf]

theorem camRun_clean (rootArg : List Char) (S : List Nat) (f : CamFaults)
    (polls : Nat) (hS : S ≠ []) (h : ∀ i, f.startErr i = none) :
    camRun rootArg S f polls =
      [Ev.log LogMsg.bgSystem, Ev.runningChanged true,
        Ev.log (LogMsg.preparingDir (get_devices_dir_normalized rootArg)),
        Ev.rmtree (get_devices_dir_normalized rootArg),
        Ev.makedirs (get_devices_dir_normalized rootArg),
        Ev.log LogMsg.searching, Ev.log (LogMsg.foundCameras S.length),
        Ev.log LogMsg.startingServices] ++
      ((S.map (mkSvc (get_devices_dir_normalized rootArg))).map
        (fun s => Ev.svcConstruct s.idx s.label s.outFile)) ++
      ((S.map (mkSvc (get_devices_dir_normalized rootArg))).flatMap
        (fun s => [Ev.log (LogMsg.startingCamera s.label),
          Ev.svcStart s.idx s.label, Ev.sleepStagger])) ++
      [Ev.log LogMsg.allRunning] ++ List.replicate polls Ev.sleepPoll ++
      [Ev.log LogMsg.stoppingAll] ++
      stopLoop f.stopErr 0 (S.map (mkSvc (get_devices_dir_normalized rootArg))) ++
      joinLoop f.hasThread f.joinErr 0
        (S.map (mkSvc (get_devices_dir_normalized rootArg))) ++
      [Ev.log LogMsg.allFinished] ++
      [Ev.runningChanged false, Ev.finished] := by
  simp only [camRun, camRunBody, if_neg hS,
    startLoop_clean f.startErr h (S.map (mkSvc (get_devices_dir_normalized rootArg))) 0]
  simp [List.append_assoc]

/-- Claim C1: for every camera selection S, `CameraServerWorker.run` constructs
and starts exactly one capture service per selected index, in selection
order, and on stop issues exactly one `stop()` call per service, in the same
order, followed by exactly one join attempt per service, in the same order,
continuing past injected `stop()`/`join()` failures.  The hypothesis states
that no `svc.start()` call raises (a start failure aborts the body and is
claim C4's territory). -/
theorem C1_supervisor_start_stop_join (rootArg : List Char) (S : List Nat)
    (f : CamFaults) (polls : Nat) (h : ∀ i, f.startErr i = none) :
    C1Prop rootArg S f polls := by
  unfold C1Prop
  by_cases hS : S = []
  · subst hS
    refine ⟨?_, ?_, ?_, ?_, camRun rootArg [] f polls, [], by simp, ?_, ?_,
        rfl, rfl⟩ <;>
      simp [camRun, camRunBody, constructIdxOf, startIdxOf, stopIdxOf,
        joinIdxOf]
  · have hfmc := fm_construct (S.map (mkSvc (get_devices_dir_normalized rootArg)))
    have hmap := map_idx_mkSvc (get_devices_dir_normalized rootArg) S
    have hfms := flatStart_fm_start (S.map (mkSvc (get_devices_dir_normalized rootArg)))
    have hstopfm := stopLoop_fm_stop f.stopErr
      (S.map (mkSvc (get_devices_dir_normalized rootArg))) 0
    have hjoinfm := joinLoop_fm_join f.hasThread f.joinErr
      (S.map (mkSvc (get_devices_dir_normalized rootArg))) 0
    have hstopnil : ∀ g : Ev → Option Nat, (∀ m, g (Ev.log m) = none) →
        (∀ k lab, g (Ev.svcStop k lab) = none) →
        (stopLoop f.stopErr 0
          (S.map (mkSvc (get_devices_dir_normalized rootArg)))).filterMap g = [] := by
      intro g hg1 hg2
      refine fm_nil_of_mem g _ (fun e he => ?_)
      rcases stopLoop_mem f.stopErr _ 0 e he with ⟨m, rfl⟩ | ⟨k, lab, rfl⟩
      · exact hg1 m
      · exact hg2 k lab
    have hjoinnil : ∀ g : Ev → Option Nat, (∀ m, g (Ev.log m) = none) →
        (∀ k lab, g (Ev.svcJoin k lab) = none) →
        (joinLoop f.hasThread f.joinErr 0
          (S.map (mkSvc (get_devices_dir_normalized rootArg)))).filterMap g = [] := by
      intro g hg1 hg2
      refine fm_nil_of_mem g _ (fun e he => ?_)
      rcases joinLoop_mem f.hasThread f.joinErr _ 0 e he with ⟨m, rfl⟩ | ⟨k, lab, rfl⟩
      · exact hg1 m
      · exact hg2 k lab
    have hstartnil : ∀ g : Ev → Option Nat, (∀ m, g (Ev.log m) = none) →
        (∀ k lab, g (Ev.svcStart k lab) = none) → g Ev.sleepStagger = none →
        ((S.map (mkSvc (get_devices_dir_normalized rootArg))).flatMap
          (fun s => [Ev.log (LogMsg.startingCamera s.label),
            Ev.svcStart s.idx s.label, Ev.sleepStagger])).filterMap g = [] := by
      intro g hg1 hg2 hg3
      refine fm_nil_of_mem g _ (fun e he => ?_)
      simp only [List.mem_flatMap] at he
      rcases he with ⟨s, _, hs⟩
      simp only [List.mem_cons, List.mem_singleton] at hs
      rcases hs with rfl | rfl | rfl | hfalse
      · exact hg1 _
      · exact hg2 _ _
      · exact hg3
      · simp at hfalse
    have hconnil : ∀ g : Ev → Option Nat,
        (∀ k lab o, g (Ev.svcConstruct k lab o) = none) →
        ((S.map (mkSvc (get_devices_dir_normalized rootArg))).map
          (fun s => Ev.svcConstruct s.idx s.label s.outFile)).filterMap g = [] := by
      intro g hg
      refine fm_nil_of_mem g _ (fun e he => ?_)
      simp only [List.mem_map] at he
      rcases he with ⟨s, _, rfl⟩
      exact hg _ _ _
    rw [camRun_clean rootArg S f polls hS h]
    refine ⟨?_, ?_, ?_, ?_, ?_⟩
    · simp only [List.filterMap_append]
      rw [hfmc, hmap, hstopnil _ (fun _ => rfl) (fun _ _ => rfl),
        hjoinnil _ (fun _ => rfl) (fun _ _ => rfl),
        hstartnil _ (fun _ => rfl) (fun _ _ => rfl) rfl]
      simp [constructIdxOf, List.filterMap_replicate]
    · simp only [List.filterMap_append]
      rw [hfms, hmap, hstopnil _ (fun _ => rfl) (fun _ _ => rfl),
        hjoinnil _ (fun _ => rfl) (fun _ _ => rfl),
        hconnil _ (fun _ _ _ => rfl)]
      simp [startIdxOf, List.filterMap_replicate]
    · simp only [List.filterMap_append]
      rw [hstopfm, hmap, hjoinnil _ (fun _ => rfl) (fun _ _ => rfl),
        hstartnil _ (fun _ => rfl) (fun _ _ => rfl) rfl,
        hconnil _ (fun _ _ _ => rfl)]
      simp [stopIdxOf, List.filterMap_replicate]
    · simp only [List.filterMap_append]
      rw [hjoinfm, hmap, hstopnil _ (fun _ => rfl) (fun _ _ => rfl),
        hstartnil _ (fun _ => rfl) (fun _ _ => rfl) rfl,
        hconnil _ (fun _ _ _ => rfl)]
      simp [joinIdxOf, List.filterMap_replicate]
    · refine ⟨[Ev.log LogMsg.bgSystem, Ev.runningChanged true,
          Ev.log (LogMsg.preparingDir (get_devices_dir_normalized rootArg)),
          Ev.rmtree (get_devices_dir_normalized rootArg),
          Ev.makedirs (get_devices_dir_normalized rootArg),
          Ev.log LogMsg.searching, Ev.log (LogMsg.foundCameras S.length),
          Ev.log LogMsg.startingServices] ++
        ((S.map (mkSvc (get_devices_dir_normalized rootArg))).map
          (fun s => Ev.svcConstruct s.idx s.label s.outFile)) ++
        ((S.map (mkSvc (get_devices_dir_normalized rootArg))).flatMap
          (fun s => [Ev.log (LogMsg.startingCamera s.label),
            Ev.svcStart s.idx s.label, Ev.sleepStagger])) ++
        [Ev.log LogMsg.allRunning] ++ List.replicate polls Ev.sleepPoll ++
        [Ev.log LogMsg.stoppingAll] ++
        stopLoop f.stopErr 0
          (S.map (mkSvc (get_devices_dir_normalized rootArg))),
        joinLoop f.hasThread f.joinErr 0
          (S.map (mkSvc (get_devices_dir_normalized rootArg))) ++
        [Ev.log LogMsg.allFinished] ++
        [Ev.runningChanged false, Ev.finished], ?_, ?_, ?_, ?_, ?_⟩
      · simp [List.append_assoc]
      · simp only [List.filterMap_append]
        rw [hstopfm, hmap, hstartnil _ (fun _ => rfl) (fun _ _ => rfl) rfl,
          hconnil _ (fun _ _ _ => rfl)]
        simp [stopIdxOf, List.filterMap_replicate]
      · simp only [List.filterMap_append]
        rw [hstopnil _ (fun _ => rfl) (fun _ _ => rfl),
          hstartnil _ (fun _ => rfl) (fun _ _ => rfl) rfl,
          hconnil _ (fun _ _ _ => rfl)]
        simp [joinIdxOf, List.filterMap_replicate]
      · simp only [List.filterMap_append]
        rw [hjoinnil _ (fun _ => rfl) (fun _ _ => rfl)]
        simp [stopIdxOf]
      · simp only [List.filterMap_append]
        rw [hjoinfm, hmap]
        simp [joinIdxOf]

/-- Witness for C1 at a concrete selection with an injected `stop()` failure
on the first service and a missing thread on the second. -/
theorem C1_supervisor_witness :
    (∀ i, (⟨fun _ => none, fun i => if i = 0 then some ⟨"boom".data, "tb".data⟩ else none,
        fun i => i != 1, fun _ => none⟩ : CamFaults).startErr i = none) ∧
    C1Prop "root".data [0, 12]
      ⟨fun _ => none, fun i => if i = 0 then some ⟨"boom".data, "tb".data⟩ else none,
        fun i => i != 1, fun _ => none⟩ 1 :=
  ⟨fun _ => rfl, C1_supervisor_start_stop_join _ _ _ _ (fun _ => rfl)⟩

/-- Claim C3 counterexample: with an empty camera selection,
`CameraServerWorker.run` still performs the destructive `shutil.rmtree` of
the device directory (the clear-and-recreate happens before the
empty-selection check), contradicting "without performing any side
effects". -/
theorem C3_counterexample :
    Ev.rmtree (get_devices_dir_normalized "r".data) ∈
      camRun "r".data []
        ⟨fun _ => none, fun _ => none, fun _ => false, fun _ => none⟩ 0 ∧
    Ev.makedirs (get_devices_dir_normalized "r".data) ∈
      camRun "r".data []
        ⟨fun _ => none, fun _ => none, fun _ => false, fun _ => none⟩ 0 := by
  constructor <;> decide

/-- Claim C3 amended: with an empty camera selection, `CameraServerWorker.run`
first clears and recreates the device directory (rmtree + makedirs), then
logs "No cameras selected." and finishes immediately, without constructing,
starting, stopping or joining any capture service. -/
theorem C3_empty_selection (rootArg : List Char) (f : CamFaults)
    (polls : Nat) :
    camRun rootArg [] f polls =
      [Ev.log LogMsg.bgSystem, Ev.runningChanged true,
        Ev.log (LogMsg.preparingDir (get_devices_dir_normalized rootArg)),
        Ev.rmtree (get_devices_dir_normalized rootArg),
        Ev.makedirs (get_devices_dir_normalized rootArg),
        Ev.log LogMsg.searching, Ev.log LogMsg.noCameras,
        Ev.runningChanged false, Ev.finished] := by
  simp [camRun, camRunBody]

/-- Claim C5: for every devices directory and every image selection (empty or
not), the trace of `ImageSourceWorker.run` consists only of log lines,
signals and stop-flag polls; it never clears, recreates or writes the
device directory. -/
theorem C5_passive_source (dir : List Char) (sel : List (List Char))
    (polls : Nat) : (imgRun dir sel polls).all benignEv = true := by
  rw [List.all_eq_true]
  intro e he
  by_cases hsel : sel = [] <;>
    simp [imgRun, hsel] at he <;>
    casesm* _ ∨ _, _ ∧ _, Exists _ <;>
    subst_vars <;>
    rfl

/-- Claim C7: when the shelf-scan script file does not exist,
`ShelfScanWorker.run` emits exactly one log line reporting the path as not
found and the `finished` signal, and nothing else — in particular no
process is spawned and `mode_changed` is never emitted. -/
theorem C7_missing_tool (projectRoot py : List Char) (m : Mode)
    (env : ShelfEnv) (h : env.fileExists = false) :
    shelfRun projectRoot py m env =
      [Ev.log (LogMsg.notFound (shelfScanPath projectRoot)), Ev.finished] := by
  simp [shelfRun, h]

/-- Witness for C7 at a concrete missing-file environment. -/
theorem C7_missing_tool_witness :
    (⟨false, Except.ok 0, [], 0, fun _ => false⟩ : ShelfEnv).fileExists = false ∧
    shelfRun "/p".data "/py".data Mode.setup
        ⟨false, Except.ok 0, [], 0, fun _ => false⟩ =
      [Ev.log (LogMsg.notFound (shelfScanPath "/p".data)), Ev.finished] :=
  ⟨rfl, C7_missing_tool _ _ _ _ rfl⟩

/-- Claim C9: on every run that reaches spawning, each tool subprocess worker
emits the synthetic announce line(s) naming the resolved interpreter and
full command line before the spawn event, and the numeric exit-code line
after the process ends.  For `ShelfScanWorker` the announcement is the
"Executing with interpreter" plus "Command:" pair; for `CamDisplayWorker`
it is the single "Executing cam display" line carrying the whole command. -/
theorem C9_announce_and_exit_code :
    (∀ (projectRoot py : List Char) (m : Mode) (env : ShelfEnv) (pid : Nat),
      env.fileExists = true → env.spawnRes = Except.ok pid →
      ∃ t1 t2 t3,
        shelfRun projectRoot py m env =
          t1 ++ Ev.spawn (shelfCmd py (shelfScanPath projectRoot) m) pid ::
            (t2 ++ Ev.log (LogMsg.shelfExited m env.exitCode) :: t3) ∧
        Ev.log (LogMsg.execInterp py) ∈ t1 ∧
        Ev.log (LogMsg.command (shelfCmd py (shelfScanPath projectRoot) m)) ∈ t1)
    ∧
    (∀ (projectRoot py rootDir title : List Char) (env : DispEnv) (pid : Nat),
      env.fileExists = true → env.spawnRes = Except.ok pid →
      ∃ t1 t2 t3,
        displayRun projectRoot py rootDir title env =
          t1 ++ Ev.spawn (displayCmd py (displayPath projectRoot) rootDir title)
            pid :: (t2 ++ Ev.log (LogMsg.displayExited env.exitCode) :: t3) ∧
        Ev.log (LogMsg.execDisplay
          (displayCmd py (displayPath projectRoot) rootDir title)) ∈ t1) := by
  constructor
  · intro projectRoot py m env pid h1 h2
    refine ⟨[Ev.log (LogMsg.execInterp py),
        Ev.log (LogMsg.command (shelfCmd py (shelfScanPath projectRoot) m)),
        Ev.modeChanged m],
      Ev.log (LogMsg.shelfStarted m pid) ::
        (readLines m env.stopFlag 0 env.lines ++ [Ev.procWait pid]),
      [Ev.finished], ?_, by simp, by simp⟩
    simp [shelfRun, h1, h2]
  · intro projectRoot py rootDir title env pid h1 h2
    refine ⟨[Ev.log (LogMsg.execDisplay
        (displayCmd py (displayPath projectRoot) rootDir title))],
      Ev.log (LogMsg.displayStarted pid) ::
        (readLinesD env.lines ++ [Ev.procWait pid]),
      [Ev.finished], ?_, by simp⟩
    simp [displayRun, h1, h2]

/-- Witness for C9 at concrete environments for both workers. -/
theorem C9_announce_and_exit_code_witness :
    (∃ t1 t2 t3,
      shelfRun "/p".data "/py".data Mode.setup
          ⟨true, Except.ok 7, [['x']], 0, fun _ => false⟩ =
        t1 ++ Ev.spawn (shelfCmd "/py".data (shelfScanPath "/p".data)
            Mode.setup) 7 ::
          (t2 ++ Ev.log (LogMsg.shelfExited Mode.setup 0) :: t3) ∧
      Ev.log (LogMsg.execInterp "/py".data) ∈ t1 ∧
      Ev.log (LogMsg.command (shelfCmd "/py".data (shelfScanPath "/p".data)
        Mode.setup)) ∈ t1)
    ∧
    (∃ t1 t2 t3,
      displayRun "/p".data "/py".data "/r".data "t".data
          ⟨true, Except.ok 9, [], 1⟩ =
        t1 ++ Ev.spawn (displayCmd "/py".data (displayPath "/p".data)
            "/r".data "t".data) 9 ::
          (t2 ++ Ev.log (LogMsg.displayExited 1) :: t3) ∧
      Ev.log (LogMsg.execDisplay (displayCmd "/py".data
        (displayPath "/p".data) "/r".data "t".data)) ∈ t1) :=
  ⟨C9_announce_and_exit_code.1 _ _ _ _ _ rfl rfl,
    C9_announce_and_exit_code.2 _ _ _ _ _ _ rfl rfl⟩

theorem readLines_fm (m : Mode) (stopFlag : Nat → Bool) :
    ∀ (ls : List (List Char)) (i : Nat),
      forwardedLines (readLines m stopFlag i ls) =
        (readLines m stopFlag i ls).filterMap (fun e =>
          match e with
          | Ev.log (LogMsg.procLine s) => some s
          | _ => none) := by
  intro ls i
  rfl

/-- The forwarded lines of the reader loop form an initial segment of the
rstripped output lines. -/
theorem readLines_isPrefix (m : Mode) (stopFlag : Nat → Bool) :
    ∀ (ls : List (List Char)) (i : Nat),
      ∃ rest, ls.map rstripL =
        forwardedLines (readLines m stopFlag i ls) ++ rest := by
  intro ls
  induction ls with
  | nil => intro i; exact ⟨[], rfl⟩
  | cons l rest ih =>
    intro i
    by_cases h1 : stopFlag i = true ∧ m = Mode.service
    · exact ⟨(l :: rest).map rstripL, by simp [readLines, h1, forwardedLines]⟩
    · by_cases h2 : l = []
      · exact ⟨(l :: rest).map rstripL,
          by simp [readLines, h1, h2, forwardedLines]⟩
      · obtain ⟨r, hr⟩ := ih (i + 1)
        refine ⟨r, ?_⟩
        simp only [readLines, if_neg h1, if_neg h2, forwardedLines,
          List.filterMap_cons, List.map_cons]
        rw [forwardedLines] at hr
        rw [hr]
        simp

/-- In "service" mode the reader loop stops forwarding at the first
iteration whose sampled stop flag is set: the number of forwarded lines
never exceeds any flagged iteration index. -/
theorem readLines_service_stop (stopFlag : Nat → Bool) :
    ∀ (ls : List (List Char)) (i j : Nat), stopFlag (i + j) = true →
      (forwardedLines (readLines Mode.service stopFlag i ls)).length ≤ j := by
  intro ls
  induction ls with
  | nil => intro i j _; simp [readLines, forwardedLines]
  | cons l rest ih =>
    intro i j hj
    by_cases h1 : stopFlag i = true ∧ Mode.service = Mode.service
    · simp [readLines, h1, forwardedLines]
    · have hfi : ¬ stopFlag i = true := by
        intro hc
        exact h1 ⟨hc, rfl⟩
      cases j with
      | zero =>
        rw [Nat.add_zero] at hj
        exact absurd hj hfi
      | succ j' =>
        by_cases h2 : l = []
        · simp [readLines, h1, h2, forwardedLines]
        · have h3 : i + 1 + j' = i + (j' + 1) := by omega
          have h4 := ih (i + 1) j' (by rw [h3]; exact hj)
          rw [readLines, if_neg h1, if_neg h2]
          simp only [forwardedLines, List.filterMap_cons,
            List.length_cons] at h4 ⊢
          omega

/-- In "setup" mode the stop flag is ignored and every (non-empty) line is
forwarded until EOF. -/
theorem readLines_setup_all (stopFlag : Nat → Bool) :
    ∀ (ls : List (List Char)) (i : Nat), (∀ l ∈ ls, l ≠ []) →
      readLines Mode.setup stopFlag i ls =
        ls.map (fun l => Ev.log (LogMsg.procLine (rstripL l))) := by
  intro ls
  induction ls with
  | nil => intro i _; rfl
  | cons l rest ih =>
    intro i hne
    have hl : l ≠ [] := hne l (List.mem_cons_self l rest)
    simp only [readLines, List.map_cons]
    rw [if_neg (by simp), if_neg hl, ih (i + 1) (fun x hx => hne x (List.mem_cons_of_mem l hx))]

theorem shelfRun_forwarded (projectRoot py : List Char) (m : Mode)
    (env : ShelfEnv) (pid : Nat) (h1 : env.fileExists = true)
    (h2 : env.spawnRes = Except.ok pid) :
    forwardedLines (shelfRun projectRoot py m env) =
      forwardedLines (readLines m env.stopFlag 0 env.lines) := by
  simp [shelfRun, h1, h2, forwardedLines]

theorem forwarded_map_log (ls : List (List Char)) :
    forwardedLines (ls.map (fun l => Ev.log (LogMsg.procLine (rstripL l)))) =
      ls.map rstripL := by
  induction ls with
  | nil => rfl
  | cons l rest ih => simp [forwardedLines, List.filterMap_cons] at ih ⊢; exact ih

/-- Claim C8: for `ShelfScanWorker` in "service" mode, the forwarded lines are an
initial segment of the (rstripped) output lines whose length never exceeds
any loop iteration at which the sampled stop flag is set — so no line read
after the stop flag is set is forwarded — while the exit-code line is still
emitted; in "setup" mode every output line is forwarded until EOF regardless
of the stop flag, and the exit-code line is emitted as well. -/
theorem C8_service_stop_semantics :
    (∀ (projectRoot py : List Char) (env : ShelfEnv) (pid : Nat),
      env.fileExists = true → env.spawnRes = Except.ok pid →
      (∃ rest, env.lines.map rstripL =
        forwardedLines (shelfRun projectRoot py Mode.service env) ++ rest) ∧
      (∀ i, env.stopFlag i = true →
        (forwardedLines (shelfRun projectRoot py Mode.service env)).length ≤ i) ∧
      Ev.log (LogMsg.shelfExited Mode.service env.exitCode) ∈
        shelfRun projectRoot py Mode.service env)
    ∧
    (∀ (projectRoot py : List Char) (env : ShelfEnv) (pid : Nat),
      env.fileExists = true → env.spawnRes = Except.ok pid →
      (∀ l ∈ env.lines, l ≠ []) →
      forwardedLines (shelfRun projectRoot py Mode.setup env) =
        env.lines.map rstripL ∧
      Ev.log (LogMsg.shelfExited Mode.setup env.exitCode) ∈
        shelfRun projectRoot py Mode.setup env) := by
  constructor
  · intro projectRoot py env pid h1 h2
    rw [shelfRun_forwarded projectRoot py Mode.service env pid h1 h2]
    refine ⟨readLines_isPrefix Mode.service env.stopFlag env.lines 0,
      fun i hi => ?_, ?_⟩
    · have := readLines_service_stop env.stopFlag env.lines 0 i
        (by rw [Nat.zero_add]; exact hi)
      exact this
    · simp [shelfRun, h1, h2]
  · intro projectRoot py env pid h1 h2 hne
    rw [shelfRun_forwarded projectRoot py Mode.setup env pid h1 h2]
    refine ⟨?_, ?_⟩
    · rw [readLines_setup_all env.stopFlag env.lines 0 hne, forwarded_map_log]
    · simp [shelfRun, h1, h2]

/-- Witness for C8 at a concrete environment: two output lines, the stop
flag raised from iteration 1 on in service mode, so exactly the first line
is forwarded; in setup mode both lines are forwarded. -/
theorem C8_service_stop_semantics_witness :
    ((∃ rest,
      ([['a', '\n'], ['b', '\n']] : List (List Char)).map rstripL =
        forwardedLines (shelfRun "/p".data "/py".data Mode.service
          ⟨true, Except.ok 3, [['a', '\n'], ['b', '\n']], 0,
            fun i => i != 0⟩) ++ rest) ∧
    (forwardedLines (shelfRun "/p".data "/py".data Mode.service
      ⟨true, Except.ok 3, [['a', '\n'], ['b', '\n']], 0,
        fun i => i != 0⟩)).length ≤ 1 ∧
    Ev.log (LogMsg.shelfExited Mode.service 0) ∈
      shelfRun "/p".data "/py".data Mode.service
        ⟨true, Except.ok 3, [['a', '\n'], ['b', '\n']], 0, fun i => i != 0⟩)
    ∧
    forwardedLines (shelfRun "/p".data "/py".data Mode.setup
        ⟨true, Except.ok 3, [['a', '\n'], ['b', '\n']], 0, fun i => i != 0⟩) =
      ([['a', '\n'], ['b', '\n']] : List (List Char)).map rstripL := by
  have hs := C8_service_stop_semantics.1 "/p".data "/py".data
    ⟨true, Except.ok 3, [['a', '\n'], ['b', '\n']], 0, fun i => i != 0⟩ 3
    rfl rfl
  have ht := C8_service_stop_semantics.2 "/p".data "/py".data
    ⟨true, Except.ok 3, [['a', '\n'], ['b', '\n']], 0, fun i => i != 0⟩ 3
    rfl rfl (by decide)
  exact ⟨⟨hs.1, hs.2.1 1 rfl, hs.2.2⟩, ht.1⟩

theorem readLines_mem (m : Mode) (stopFlag : Nat → Bool) :
    ∀ (ls : List (List Char)) (i : Nat), ∀ e ∈ readLines m stopFlag i ls,
      ∃ s, e = Ev.log (LogMsg.procLine s) := by
  intro ls
  induction ls with
  | nil => intro i e he; simp [readLines] at he
  | cons l rest ih =>
    intro i e he
    rw [readLines] at he
    by_cases h1 : stopFlag i = true ∧ m = Mode.service
    · rw [if_pos h1] at he; simp at he
    · rw [if_neg h1] at he
      by_cases h2 : l = []
      · rw [if_pos h2] at he; simp at he
      · rw [if_neg h2] at he
        rcases List.mem_cons.mp he with rfl | hmem
        · exact ⟨_, rfl⟩
        · exact ih (i + 1) e hmem

theorem readLinesD_mem :
    ∀ (ls : List (List Char)), ∀ e ∈ readLinesD ls,
      ∃ s, e = Ev.log (LogMsg.procLine s) := by
  intro ls
  induction ls with
  | nil => intro e he; simp [readLinesD] at he
  | cons l rest ih =>
    intro e he
    rw [readLinesD] at he
    by_cases h2 : l = []
    · rw [if_pos h2] at he; simp at he
    · rw [if_neg h2] at he
      rcases List.mem_cons.mp he with rfl | hmem
      · exact ⟨_, rfl⟩
      · exact ih e hmem

theorem countP_zero_of_mem (p : Ev → Bool) (l : List Ev)
    (h : ∀ e ∈ l, p e = false) : l.countP p = 0 :=
  List.countP_eq_zero.mpr (by intro a ha; rw [h a ha]; exact Bool.false_ne_true)

theorem lastFin (l tail : List Ev) (h : tail.getLast? = some Ev.finished) :
    (l ++ tail).getLast? = some Ev.finished := by
  rw [List.getLast?_append, h]
  rfl

theorem camRunBody_no_finished (rootArg : List Char) (S : List Nat)
    (f : CamFaults) (polls : Nat) :
    (camRunBody rootArg S f polls).1.countP isFinishedEv = 0 := by
  by_cases hS : S = []
  · subst hS
    simp [camRunBody, List.countP_cons, isFinishedEv]
  · rcases hstart : startLoop f.startErr 0
      (S.map (mkSvc (get_devices_dir_normalized rootArg))) with ⟨evs, err⟩
    have hevs : evs = (startLoop f.startErr 0
        (S.map (mkSvc (get_devices_dir_normalized rootArg)))).1 := by
      rw [hstart]
    have hcevs : evs.countP isFinishedEv = 0 := by
      refine countP_zero_of_mem _ _ (fun e he => ?_)
      rw [hevs] at he
      rcases startLoop_mem f.startErr _ 0 e he with ⟨m, rfl⟩ | ⟨k, lab, rfl⟩ | rfl
        <;> rfl
    have hccon : ((S.map (mkSvc (get_devices_dir_normalized rootArg))).map
        (fun s => Ev.svcConstruct s.idx s.label s.outFile)).countP
          isFinishedEv = 0 := by
      refine countP_zero_of_mem _ _ (fun e he => ?_)
      rcases List.mem_map.mp he with ⟨s, _, rfl⟩
      rfl
    have hcstop : (stopLoop f.stopErr 0
        (S.map (mkSvc (get_devices_dir_normalized rootArg)))).countP
          isFinishedEv = 0 := by
      refine countP_zero_of_mem _ _ (fun e he => ?_)
      rcases stopLoop_mem f.stopErr _ 0 e he with ⟨m, rfl⟩ | ⟨k, lab, rfl⟩ <;> rfl
    have hcjoin : (joinLoop f.hasThread f.joinErr 0
        (S.map (mkSvc (get_devices_dir_normalized rootArg)))).countP
          isFinishedEv = 0 := by
      refine countP_zero_of_mem _ _ (fun e he => ?_)
      rcases joinLoop_mem f.hasThread f.joinErr _ 0 e he
        with ⟨m, rfl⟩ | ⟨k, lab, rfl⟩ <;> rfl
    have hcrep : (List.replicate polls Ev.sleepPoll).countP isFinishedEv = 0 := by
      refine countP_zero_of_mem _ _ (fun e he => ?_)
      rw [(List.mem_replicate.mp he).2]
      rfl
    cases err with
    | some e =>
      simp only [camRunBody, if_neg hS, hstart]
      simp [List.countP_append, List.countP_cons, isFinishedEv, hcevs, hccon]
    | none =>
      simp only [camRunBody, if_neg hS, hstart]
      simp [List.countP_append, List.countP_cons, isFinishedEv, hcevs, hccon,
        hcstop, hcjoin, hcrep]

/-- Claim C4, amended: every one of the four workers emits the `finished`
signal exactly once per run and as its very last action, on every execution
path (normal completion, early return, or an injected fault); unhandled
faults are caught at the worker boundary and reported via a handler log
line, and the run functions are total (no fault propagates out of `run`).
The `CameraServerWorker` handler logs the full diagnostic traceback (and
shows the message box); the tool workers' handlers log only the error
message. -/
theorem C4_amended : C4Prop := by
  refine ⟨?_, ?_, ?_, ?_, ?_, ?_, ?_⟩
  · intro rootArg S f polls
    constructor
    · have hb := camRunBody_no_finished rootArg S f polls
      rw [camRun, finishedCount]
      cases herr : (camRunBody rootArg S f polls).2 <;>
        simp [List.countP_append, List.countP_cons, isFinishedEv, hb,
          finishedCount]
    · show ((camRunBody rootArg S f polls).1 ++
        (match (camRunBody rootArg S f polls).2 with
         | some e => [Ev.log (LogMsg.fatalTraceback e), Ev.msgBoxCritical e]
         | none => []) ++
        [Ev.runningChanged false, Ev.finished]).getLast? = some Ev.finished
      exact lastFin _ _ rfl
  · intro dir sel polls
    constructor
    · by_cases hsel : sel = [] <;>
        · rw [finishedCount]
          refine Eq.trans (b := (List.replicate polls Ev.sleepPoll).countP
            isFinishedEv + 1) ?_ ?_
          · simp [imgRun, hsel, List.countP_append, List.countP_cons,
              isFinishedEv, List.countP_map, Function.comp]
          · rw [countP_zero_of_mem _ _ (fun e he => by
              rw [(List.mem_replicate.mp he).2]; rfl)]
    · show ([Ev.runningChanged true, Ev.log LogMsg.imageMode,
        Ev.log (LogMsg.devicesFolder dir)] ++
        (if sel = [] then [Ev.log LogMsg.noImages]
         else Ev.log (LogMsg.usingImages sel.length) ::
           sel.map (fun p => Ev.log (LogMsg.imageName (basenameL p)))) ++
        List.replicate polls Ev.sleepPoll ++
        [Ev.log LogMsg.imageStopped] ++
        [Ev.runningChanged false, Ev.finished]).getLast? = some Ev.finished
      exact lastFin _ _ rfl
  · intro projectRoot py m env
    constructor
    · rw [finishedCount]
      cases hf : env.fileExists
      · simp [shelfRun, hf, List.countP_cons, isFinishedEv]
      · cases hsp : env.spawnRes with
        | error e =>
          simp [shelfRun, hf, hsp, List.countP_append, List.countP_cons,
            isFinishedEv]
        | ok pid =>
          have hrl : (readLines m env.stopFlag 0 env.lines).countP
              isFinishedEv = 0 := by
            refine countP_zero_of_mem _ _ (fun e he => ?_)
            rcases readLines_mem m env.stopFlag env.lines 0 e he with ⟨s, rfl⟩
            rfl
          simp [shelfRun, hf, hsp, List.countP_append, List.countP_cons,
            isFinishedEv, hrl]
    · show (_ ++ [Ev.finished]).getLast? = some Ev.finished
      exact lastFin _ _ rfl
  · intro projectRoot py rootDir title env
    constructor
    · rw [finishedCount]
      cases hf : env.fileExists
      · simp [displayRun, hf, List.countP_cons, isFinishedEv]
      · cases hsp : env.spawnRes with
        | error e =>
          simp [displayRun, hf, hsp, List.countP_append, List.countP_cons,
            isFinishedEv]
        | ok pid =>
          have hrl : (readLinesD env.lines).countP isFinishedEv = 0 := by
            refine countP_zero_of_mem _ _ (fun e he => ?_)
            rcases readLinesD_mem env.lines e he with ⟨s, rfl⟩
            rfl
          simp [displayRun, hf, hsp, List.countP_append, List.countP_cons,
            isFinishedEv, hrl]
    · show (_ ++ [Ev.finished]).getLast? = some Ev.finished
      exact lastFin _ _ rfl
  · intro rootArg S f polls e herr
    rw [camRun, herr]
    constructor <;> simp
  · intro projectRoot py m env e h1 h2
    simp [shelfRun, h1, h2]
  · intro projectRoot py rootDir title env e h1 h2
    simp [displayRun, h1, h2]

/-- Witness for C4 at concrete inputs, including a faulted camera run. -/
theorem C4_amended_witness :
    finishedCount (camRun "r".data [4]
      ⟨fun _ => some ⟨"boom".data, "tb".data⟩, fun _ => none, fun _ => false,
        fun _ => none⟩ 0) = 1 ∧
    finishedCount (imgRun "/d".data [] 2) = 1 ∧
    Ev.log (LogMsg.errRunning Mode.service ⟨"no interp".data, "tb2".data⟩) ∈
      shelfRun "/p".data "/py".data Mode.service
        ⟨true, Except.error ⟨"no interp".data, "tb2".data⟩, [], 0,
          fun _ => false⟩ :=
  ⟨(C4_amended.1 _ _ _ _).1, (C4_amended.2.1 _ _ _).1,
    C4_amended.2.2.2.2.2.1 _ _ _ _ _ rfl rfl⟩

/-- Claim C4 counterexample: a `ShelfScanWorker` run in which the body raised (the
`Popen` call failed, caught and reported through the handler's "Error
running" line) contains no log line bearing the full diagnostic traceback —
so it is not the case that every worker logs unhandled faults with a full
diagnostic trace. -/
theorem C4_counterexample :
    Ev.log (LogMsg.errRunning Mode.setup ⟨"bad".data, "tb".data⟩) ∈
      shelfRun "/p".data "/py".data Mode.setup
        ⟨true, Except.error ⟨"bad".data, "tb".data⟩, [], 0, fun _ => false⟩ ∧
    (shelfRun "/p".data "/py".data Mode.setup
        ⟨true, Except.error ⟨"bad".data, "tb".data⟩, [], 0,
          fun _ => false⟩).countP isTracebackLog = 0 := by
  constructor <;> decide

theorem retired_countP_zero (rs : List WorkerRec)
    (h : rs.all (fun w => !w.running) = true) (s : Slot) :
    rs.countP (fun w => w.running && w.slot == s) = 0 := by
  rw [List.countP_eq_zero]
  intro w hw
  have hr := List.all_eq_true.mp h w hw
  simp at hr
  simp [hr]

theorem optWorker_countP_le_one (o : Option WorkerRec) (s : Slot) :
    o.toList.countP (fun w => w.running && w.slot == s) ≤ 1 := by
  cases o with
  | none => simp
  | some w => simp [List.countP_cons]; split <;> omega

theorem optWorker_countP_zero_of_slot (o : Option WorkerRec) (s s' : Slot)
    (hok : slotOkB o s = true) (hne : s ≠ s') :
    o.toList.countP (fun w => w.running && w.slot == s') = 0 := by
  cases o with
  | none => simp
  | some w =>
    simp [slotOkB] at hok
    simp [List.countP_cons, hok, hne]

/-- Claim C6: a start request on a slot whose worker is active is rejected with a
`SlotBusy` report and leaves the state (in particular the active worker and
the construction counter) unchanged, for each of the four start methods;
and, under the slot invariant preserved by every operation, at most one
worker per slot is running at any time. -/
theorem C6_slot_exclusion :
    (∀ (st : GuiState) (ok : Bool), isRunningOpt st.activeWorker = true →
      start_source st ok = (st, StartResult.slotBusy)) ∧
    (∀ st : GuiState, isRunningOpt st.shelfWorker = true →
      run_shelf_setup st = (st, StartResult.slotBusy)) ∧
    (∀ st : GuiState, isRunningOpt st.shelfWorker = true →
      start_shelf_service st = (st, StartResult.slotBusy)) ∧
    (∀ st : GuiState, isRunningOpt st.displayWorker = true →
      start_cam_display st = (st, StartResult.slotBusy)) ∧
    (∀ (st : GuiState) (s : Slot), GuiInv st → runningInSlot st s ≤ 1) ∧
    (∀ (st : GuiState) (op : GuiOp), GuiInv st → GuiInv (stepGui st op)) := by
  refine ⟨?_, ?_, ?_, ?_, ?_, ?_⟩
  · intro st ok h
    simp [start_source, h]
  · intro st h
    simp [run_shelf_setup, h]
  · intro st h
    simp [start_shelf_service, h]
  · intro st h
    simp [start_cam_display, h]
  · intro st s hInv
    obtain ⟨hr, ha, hs, hd⟩ := hInv
    rw [runningInSlot, allWorkers]
    simp only [List.countP_append]
    rw [retired_countP_zero st.retired hr s]
    cases s
    · rw [optWorker_countP_zero_of_slot st.shelfWorker Slot.shelf Slot.source
          hs (by simp),
        optWorker_countP_zero_of_slot st.displayWorker Slot.display
          Slot.source hd (by simp)]
      have := optWorker_countP_le_one st.activeWorker Slot.source
      omega
    · rw [optWorker_countP_zero_of_slot st.activeWorker Slot.source
          Slot.shelf ha (by simp),
        optWorker_countP_zero_of_slot st.displayWorker Slot.display
          Slot.shelf hd (by simp)]
      have := optWorker_countP_le_one st.shelfWorker Slot.shelf
      omega
    · rw [optWorker_countP_zero_of_slot st.activeWorker Slot.source
          Slot.display ha (by simp),
        optWorker_countP_zero_of_slot st.shelfWorker Slot.shelf
          Slot.display hs (by simp)]
      have := optWorker_countP_le_one st.displayWorker Slot.display
      omega
  · intro st op hInv
    obtain ⟨hr, ha, hs, hd⟩ := hInv
    have notRun : ∀ o : Option WorkerRec, ¬ isRunningOpt o = true →
        isRunningOpt o = false := by
      intro o h
      cases h' : isRunningOpt o
      · rfl
      · exact absurd h' h
    have retire_all : ∀ (old : Option WorkerRec) (rs : List WorkerRec),
        rs.all (fun w => !w.running) = true → isRunningOpt old = false →
        (retireOpt old rs).all (fun w => !w.running) = true := by
      intro old rs h hold
      cases old with
      | none => simpa [retireOpt] using h
      | some w =>
        simp [isRunningOpt] at hold
        simp [retireOpt, List.all_append, h, hold]
    have setfin_ok : ∀ (o : Option WorkerRec) (s : Slot),
        slotOkB o s = true → slotOkB (setFinished o) s = true := by
      intro o s h
      cases o with
      | none => simpa [setFinished] using h
      | some w => simpa [setFinished, slotOkB] using h
    cases op with
    | startSrc ok =>
      by_cases hb : isRunningOpt st.activeWorker = true
      · simp only [stepGui, start_source, hb, if_pos]
        exact ⟨hr, ha, hs, hd⟩
      · by_cases hok : ok = false
        · simp only [stepGui, start_source, if_neg hb, hok, if_pos]
          exact ⟨hr, ha, hs, hd⟩
        · have hok2 : ok = true := by
            cases ok
            · exact absurd rfl hok
            · rfl
          simp only [stepGui, start_source, if_neg hb, hok2]
          refine ⟨retire_all _ _ hr (notRun _ hb), rfl, hs, hd⟩
    | shelfSetup =>
      by_cases hb : isRunningOpt st.shelfWorker = true
      · simp only [stepGui, run_shelf_setup, hb, if_pos]
        exact ⟨hr, ha, hs, hd⟩
      · simp only [stepGui, run_shelf_setup, if_neg hb]
        exact ⟨retire_all _ _ hr (notRun _ hb), ha, rfl, hd⟩
    | shelfService =>
      by_cases hb : isRunningOpt st.shelfWorker = true
      · simp only [stepGui, start_shelf_service, hb, if_pos]
        exact ⟨hr, ha, hs, hd⟩
      · simp only [stepGui, start_shelf_service, if_neg hb]
        exact ⟨retire_all _ _ hr (notRun _ hb), ha, rfl, hd⟩
    | camDisplay =>
      by_cases hb : isRunningOpt st.displayWorker = true
      · simp only [stepGui, start_cam_display, hb, if_pos]
        exact ⟨hr, ha, hs, hd⟩
      · simp only [stepGui, start_cam_display, if_neg hb]
        exact ⟨retire_all _ _ hr (notRun _ hb), ha, hs, rfl⟩
    | srcFinished => exact ⟨hr, setfin_ok _ _ ha, hs, hd⟩
    | shelfFinished => exact ⟨hr, ha, setfin_ok _ _ hs, hd⟩
    | displayFinished => exact ⟨hr, ha, hs, setfin_ok _ _ hd⟩

/-- Witness for C6: a busy source slot rejects a start without any state
change; invariant and running-count checks at a concrete state. -/
theorem C6_slot_exclusion_witness :
    start_source ⟨some ⟨0, Slot.source, true⟩, none, none, [], 1⟩ true =
      (⟨some ⟨0, Slot.source, true⟩, none, none, [], 1⟩, StartResult.slotBusy) ∧
    runningInSlot ⟨some ⟨0, Slot.source, true⟩, none, none, [], 1⟩
      Slot.source ≤ 1 ∧
    GuiInv (stepGui ⟨some ⟨0, Slot.source, true⟩, none, none, [], 1⟩
      GuiOp.shelfService) :=
  ⟨C6_slot_exclusion.1 _ true rfl,
    C6_slot_exclusion.2.2.2.2.1 _ Slot.source ⟨rfl, rfl, rfl, rfl⟩,
    C6_slot_exclusion.2.2.2.2.2 _ GuiOp.shelfService ⟨rfl, rfl, rfl, rfl⟩⟩

theorem lexLe_total (a : List Char) :
    ∀ b, lexLe a b = true ∨ lexLe b a = true := by
  induction a with
  | nil => intro b; left; rfl
  | cons x xs ih =>
    intro b
    cases b with
    | nil => right; rfl
    | cons y ys =>
      rcases lt_trichotomy x y with h | h | h
      · left; simp [lexLe, h]
      · subst h
        rcases ih ys with h2 | h2
        · left; simp [lexLe, h2]
        · right; simp [lexLe, h2]
      · right; simp [lexLe, h]

theorem lexLe_trans (a : List Char) :
    ∀ b c, lexLe a b = true → lexLe b c = true → lexLe a c = true := by
  induction a with
  | nil => intro b c _ _; rfl
  | cons x xs ih =>
    intro b c h1 h2
    cases b with
    | nil => simp [lexLe] at h1
    | cons y ys =>
      cases c with
      | nil => simp [lexLe] at h2
      | cons z zs =>
        rw [lexLe] at h1 h2 ⊢
        by_cases hxy : x < y
        · by_cases hyz : y < z
          · simp [lt_trans hxy hyz]
          · rw [if_neg hyz] at h2
            by_cases hyz2 : y = z
            · subst hyz2
              simp [hxy]
            · rw [if_neg hyz2] at h2
              exact absurd h2 (by simp)
        · rw [if_neg hxy] at h1
          by_cases hxy2 : x = y
          · subst hxy2
            rw [if_pos rfl] at h1
            by_cases hyz : x < z
            · simp [hyz]
            · rw [if_neg hyz] at h2
              by_cases hyz2 : x = z
              · subst hyz2
                rw [if_pos rfl] at h2
                rw [if_neg (lt_irrefl x), if_pos rfl]
                exact ih ys zs h1 h2
              · rw [if_neg hyz2] at h2
                exact absurd h2 (by simp)
          · rw [if_neg hxy2] at h1
            exact absurd h1 (by simp)

instance : IsTotal (List Char) (fun a b => lexLe a b = true) :=
  ⟨lexLe_total⟩

instance : IsTrans (List Char) (fun a b => lexLe a b = true) :=
  ⟨fun a b c => lexLe_trans a b c⟩

theorem joinP_abs (a b : List Char) (h : isAbs a = true) :
    isAbs (joinP a b) = true := by
  rw [joinP]
  by_cases hb : b.take 1 = [sep]
  · rw [if_pos hb]
    simpa [isAbs] using hb
  · rw [if_neg hb]
    rw [isAbs, decide_eq_true_eq] at h
    obtain ⟨t, rfl⟩ : ∃ t, a = sep :: t := by
      cases a with
      | nil => simp at h
      | cons c t =>
        simp at h
        exact ⟨t, by rw [h]⟩
    by_cases h2 : (sep :: t : List Char) = [] ∨
        (sep :: t : List Char).getLast? = some sep
    · rw [if_pos h2]
      simp [isAbs]
    · rw [if_neg h2]
      simp [isAbs]

/-- Claim C10 counterexample: for a relative directory path the results of
`find_jpg_images` are not absolute paths (they are only directory-joined),
refuting the claim's "returns the absolute paths" for every directory
path. -/
theorem C10_counterexample :
    find_jpg_images ⟨true, ["a.jpg".data]⟩ "d".data = ["d/a.jpg".data] ∧
    isAbs "d/a.jpg".data = false := by
  constructor <;> decide

/-- Claim C10 amended: `find_jpg_images` never fails and returns the empty list
when the path is not an existing directory; otherwise it returns the
directory-joined paths (absolute whenever the directory path is absolute)
of exactly the entries whose names end in ".jpg" case-insensitively, in
ascending lexicographic order of entry name. -/
theorem C10_find_jpg (fs : DirFs) (devicesDir : List Char) :
    (fs.isDir = false → find_jpg_images fs devicesDir = []) ∧
    (fs.isDir = true →
      ∃ l, find_jpg_images fs devicesDir =
          l.map (fun n => joinP devicesDir n) ∧
        List.Sorted (fun a b => lexLe a b = true) l ∧
        l.Perm (fs.entries.filter (fun n => isJpgName n))) ∧
    (isAbs devicesDir = true →
      ∀ p ∈ find_jpg_images fs devicesDir, isAbs p = true) := by
  refine ⟨?_, ?_, ?_⟩
  · intro h
    simp [find_jpg_images, h]
  · intro h
    refine ⟨(fs.entries.insertionSort (fun a b => lexLe a b = true)).filter
      (fun n => isJpgName n), ?_, ?_, ?_⟩
    · rw [find_jpg_images, h]
      simp
    · exact List.Pairwise.filter _
        (List.sorted_insertionSort (fun a b => lexLe a b = true) fs.entries)
    · exact List.Perm.filter _
        (List.perm_insertionSort (fun a b => lexLe a b = true) fs.entries)
  · intro h p hp
    rw [find_jpg_images] at hp
    by_cases hdir : fs.isDir = false
    · rw [if_pos hdir] at hp
      simp at hp
    · rw [if_neg hdir] at hp
      rcases List.mem_map.mp hp with ⟨n, _, rfl⟩
      exact joinP_abs devicesDir n h

/-- Witness for C10 at concrete filesystems. -/
theorem C10_find_jpg_witness :
    find_jpg_images ⟨false, ["x.jpg".data]⟩ "/d".data = [] ∧
    (∃ l, find_jpg_images ⟨true, ["b.JPG".data, "a.jpg".data, "c.txt".data]⟩
        "/d".data = l.map (fun n => joinP "/d".data n) ∧
      List.Sorted (fun a b => lexLe a b = true) l ∧
      l.Perm ((["b.JPG".data, "a.jpg".data, "c.txt".data] :
        List (List Char)).filter (fun n => isJpgName n))) ∧
    (∀ p ∈ find_jpg_images ⟨true, ["a.jpg".data]⟩ "/d".data,
      isAbs p = true) :=
  ⟨(C10_find_jpg ⟨false, ["x.jpg".data]⟩ "/d".data).1 rfl,
    (C10_find_jpg ⟨true, ["b.JPG".data, "a.jpg".data, "c.txt".data]⟩
      "/d".data).2.1 rfl,
    (C10_find_jpg ⟨true, ["a.jpg".data]⟩ "/d".data).2.2 rfl⟩

theorem splitSep_ne_nil (p : List Char) : splitSep p ≠ [] := by
  cases p with
  | nil => simp [splitSep]
  | cons c cs =>
    rw [splitSep]
    by_cases h : c = sep
    · simp [h]
    · simp [h]

theorem splitSep_append (xs ys : List Char) :
    splitSep (xs ++ sep :: ys) = splitSep xs ++ splitSep ys := by
  induction xs with
  | nil => simp [splitSep]
  | cons c cs ih =>
    rw [List.cons_append, splitSep, ih]
    by_cases h : c = sep
    · rw [if_pos h]
      conv_rhs => rw [splitSep, if_pos h]
      rfl
    · rw [if_neg h]
      conv_rhs => rw [splitSep, if_neg h]
      rcases hs : splitSep cs with _ | ⟨w, ws⟩
      · exact absurd hs (splitSep_ne_nil cs)
      · simp

theorem splitSep_no_sep (p : List Char) : ∀ l ∈ splitSep p, sep ∉ l := by
  induction p with
  | nil =>
    intro l hl
    simp [splitSep] at hl
    simp [hl]
  | cons c cs ih =>
    intro l hl
    rw [splitSep] at hl
    by_cases h : c = sep
    · rw [if_pos h] at hl
      rcases List.mem_cons.mp hl with rfl | hmem
      · simp
      · exact ih l hmem
    · rw [if_neg h] at hl
      rcases hs : splitSep cs with _ | ⟨w, ws⟩
      · exact absurd hs (splitSep_ne_nil cs)
      · rw [hs] at hl
        simp only [List.headD_cons, List.tail_cons] at hl
        rcases List.mem_cons.mp hl with rfl | hmem
        · intro hc
          rcases List.mem_cons.mp hc with rfl | hcw
          · exact h rfl
          · exact ih w (by rw [hs]; exact List.mem_cons_self w ws) hcw
        · exact ih l (by rw [hs]; exact List.mem_cons_of_mem w hmem)

theorem splitSep_single (xs : List Char) (h : sep ∉ xs) :
    splitSep xs = [xs] := by
  induction xs with
  | nil => rfl
  | cons c cs ih =>
    have hc : ¬ c = sep := fun hcc => h (hcc ▸ List.mem_cons_self c cs)
    have hcs : sep ∉ cs := fun hm => h (List.mem_cons_of_mem c hm)
    rw [splitSep, if_neg hc, ih hcs]
    rfl

theorem joinComps_cons (a : List Char) (L : List (List Char)) (h : L ≠ []) :
    joinComps (a :: L) = a ++ sep :: joinComps L := by
  cases L with
  | nil => exact absurd rfl h
  | cons b r => rfl

theorem splitSep_joinComps (L : List (List Char))
    (hsep : ∀ l ∈ L, sep ∉ l) (hne : L ≠ []) :
    splitSep (joinComps L) = L := by
  induction L with
  | nil => exact absurd rfl hne
  | cons a r ih =>
    cases r with
    | nil =>
      rw [joinComps, splitSep_single a (hsep a (List.mem_cons_self a []))]
    | cons b r' =>
      rw [joinComps_cons a (b :: r') (by simp), splitSep_append,
        splitSep_single a (hsep a (List.mem_cons_self a (b :: r'))),
        ih (fun l hl => hsep l (List.mem_cons_of_mem a hl)) (by simp)]
      rfl

theorem joinComps_ne_nil (L : List (List Char)) (hne : L ≠ [])
    (hnil : [] ∉ L) : joinComps L ≠ [] := by
  cases L with
  | nil => exact absurd rfl hne
  | cons a r =>
    have ha : a ≠ [] := fun h => hnil (h ▸ List.mem_cons_self a r)
    cases r with
    | nil => exact ha
    | cons b r' =>
      rw [joinComps_cons a (b :: r') (by simp)]
      intro h
      exact ha (List.append_eq_nil.mp h).1

theorem joinComps_concat (L : List (List Char)) (d : List Char)
    (hne : L ≠ []) : joinComps (L ++ [d]) = joinComps L ++ sep :: d := by
  induction L with
  | nil => exact absurd rfl hne
  | cons a r ih =>
    cases r with
    | nil => rfl
    | cons b r' =>
      rw [List.cons_append, joinComps_cons a ((b :: r') ++ [d]) (by simp),
        joinComps_cons a (b :: r') (by simp), ih (by simp)]
      simp

theorem takeWhile_append_all (p : Char → Bool) (l1 l2 : List Char)
    (h : ∀ a ∈ l1, p a = true) :
    (l1 ++ l2).takeWhile p = l1 ++ l2.takeWhile p := by
  induction l1 with
  | nil => rfl
  | cons a r ih =>
    rw [List.cons_append, List.takeWhile_cons,
      h a (List.mem_cons_self a r), ih (fun x hx => h x (List.mem_cons_of_mem a hx))]
    rfl

theorem basename_no_sep (w : List Char) (h : sep ∉ w) : basenameL w = w := by
  rw [basenameL, List.takeWhile_eq_self_iff.mpr, List.reverse_reverse]
  intro a ha
  have : a ∈ w := List.mem_reverse.mp ha
  simp only [bne_iff_ne, ne_eq]
  exact fun hc => h (hc ▸ this)

theorem basename_append (xs w : List Char) (h : sep ∉ w) :
    basenameL (xs ++ sep :: w) = w := by
  rw [basenameL]
  rw [List.reverse_append, List.reverse_cons]
  rw [List.append_assoc]
  rw [takeWhile_append_all _ w.reverse ([sep] ++ xs.reverse) (by
    intro a ha
    have : a ∈ w := List.mem_reverse.mp ha
    simp only [bne_iff_ne, ne_eq]
    exact fun hc => h (hc ▸ this))]
  have : List.takeWhile (fun c => c != sep) ([sep] ++ xs.reverse) = [] := by
    simp [List.takeWhile_cons]
  rw [this, List.append_nil, List.reverse_reverse]

theorem NormalComps_nil (b : Bool) : NormalComps b [] := by
  cases b
  · exact ⟨0, [], rfl, by simp⟩
  · intro c hc
    simp at hc

theorem NormalComps_not_nil_mem (b : Bool) (L : List (List Char))
    (h : NormalComps b L) : ∀ c ∈ L, c ≠ [] := by
  cases b with
  | true =>
    intro c hc
    exact (h c hc).1
  | false =>
    obtain ⟨k, M, rfl, hM⟩ := h
    intro c hc
    rcases List.mem_append.mp hc with hc1 | hc2
    · rw [(List.mem_replicate.mp hc1).2]
      decide
    · exact (hM c hc2).1

theorem npStep_skip (b : Bool) (acc : List (List Char)) (c : List Char)
    (h : c = [] ∨ c = dotC) : npStep b acc c = acc := by
  rw [npStep, if_pos h]

theorem npStep_push (b : Bool) (acc : List (List Char)) (c : List Char)
    (h : cleanComp c) : npStep b acc c = acc ++ [c] := by
  rw [npStep, if_neg (by
      intro hor
      rcases hor with h1 | h1
      · exact h.1 h1
      · exact h.2.1 h1),
    if_pos (Or.inl h.2.2)]

theorem npStep_push_dd (acc : List (List Char))
    (h : acc = [] ∨ acc.getLast? = some dotdotC) :
    npStep false acc dotdotC = acc ++ [dotdotC] := by
  rw [npStep, if_neg (by decide)]
  rcases h with h | h
  · rw [if_pos (Or.inr (Or.inl ⟨rfl, h⟩))]
  · rw [if_pos (Or.inr (Or.inr ⟨by
      intro hc
      rw [hc] at h
      simp at h, h⟩))]

theorem mem_of_mem_dropLast {α : Type} (l : List α) (x : α)
    (h : x ∈ l.dropLast) : x ∈ l :=
  (List.dropLast_sublist l).subset h

theorem foldl_push_clean (b : Bool) (cs : List (List Char))
    (h : ∀ c ∈ cs, cleanComp c) :
    ∀ acc, List.foldl (npStep b) acc cs = acc ++ cs := by
  induction cs with
  | nil => intro acc; simp
  | cons c r ih =>
    intro acc
    rw [List.foldl_cons, npStep_push b acc c (h c (List.mem_cons_self c r)),
      ih (fun x hx => h x (List.mem_cons_of_mem c hx))]
    simp

theorem foldl_dd (k : Nat) :
    ∀ j, List.foldl (npStep false) (List.replicate j dotdotC)
      (List.replicate k dotdotC) = List.replicate (j + k) dotdotC := by
  induction k with
  | zero => intro j; simp
  | succ k ih =>
    intro j
    have hacc : List.replicate j dotdotC = [] ∨
        (List.replicate j dotdotC).getLast? = some dotdotC := by
      cases j with
      | zero => exact Or.inl rfl
      | succ j' =>
        right
        rw [List.replicate_succ']
        exact List.getLast?_concat _
    rw [List.replicate_succ, List.foldl_cons, npStep_push_dd _ hacc,
      ← List.replicate_succ' j dotdotC, ih (j + 1)]
    congr 1
    omega

theorem npStep_mem (b : Bool) (acc : List (List Char)) (c x : List Char)
    (h : x ∈ npStep b acc c) : x ∈ acc ∨ x = c := by
  rw [npStep] at h
  split at h
  · exact Or.inl h
  · split at h
    · rcases List.mem_append.mp h with h1 | h1
      · exact Or.inl h1
      · exact Or.inr (List.mem_singleton.mp h1)
    · split at h
      · exact Or.inl (mem_of_mem_dropLast acc x h)
      · exact Or.inl h

theorem npFold_subset (b : Bool) (cs : List (List Char)) :
    ∀ acc x, x ∈ List.foldl (npStep b) acc cs → x ∈ acc ∨ x ∈ cs := by
  induction cs with
  | nil =>
    intro acc x h
    exact Or.inl h
  | cons c r ih =>
    intro acc x h
    rw [List.foldl_cons] at h
    rcases ih (npStep b acc c) x h with h1 | h1
    · rcases npStep_mem b acc c x h1 with h2 | h2
      · exact Or.inl h2
      · exact Or.inr (h2 ▸ List.mem_cons_self c r)
    · exact Or.inr (List.mem_cons_of_mem c h1)

theorem npStep_normal (b : Bool) (acc : List (List Char)) (c : List Char)
    (h : NormalComps b acc) : NormalComps b (npStep b acc c) := by
  by_cases h1 : c = [] ∨ c = dotC
  · rw [npStep_skip b acc c h1]
    exact h
  · by_cases h2 : c = dotdotC
    · subst h2
      cases b with
      | false =>
        obtain ⟨k, M, rfl, hM⟩ := h
        cases hM' : M with
        | nil =>
          subst hM'
          rw [List.append_nil]
          rw [npStep_push_dd (List.replicate k dotdotC) (by
            cases k with
            | zero => exact Or.inl rfl
            | succ k' =>
              exact Or.inr (by
                rw [List.replicate_succ']
                exact List.getLast?_concat _))]
          exact ⟨k + 1, [], by rw [List.replicate_succ', List.append_nil], by simp⟩
        | cons m ms =>
          subst hM'
          have hlast : (List.replicate k dotdotC ++ m :: ms).getLast? =
              some ((m :: ms).getLast (by simp)) := by
            rw [List.getLast?_append, List.getLast?_eq_getLast (m :: ms) (by simp)]
            rfl
          have hgl : (m :: ms).getLast (by simp) ∈ m :: ms :=
            List.getLast_mem _
          have hglc := hM _ hgl
          rw [npStep, if_neg (by decide), if_neg (by
              intro hor
              rcases hor with hA | hA | hA
              · exact hA rfl
              · rcases hA with ⟨_, hA2⟩
                simp at hA2
              · rcases hA with ⟨_, hA2⟩
                rw [hlast] at hA2
                exact hglc.2.2 (Option.some.inj hA2)),
            if_pos (by simp)]
          rw [List.dropLast_append_of_ne_nil _ (by simp)]
          exact ⟨k, (m :: ms).dropLast, rfl,
            fun x hx => hM x (mem_of_mem_dropLast _ x hx)⟩
      | true =>
        cases hacc : acc with
        | nil =>
          rw [npStep, if_neg (by decide), if_neg (by
              intro hor
              rcases hor with hA | hA | hA
              · exact hA rfl
              · simp at hA
              · simp at hA),
            if_neg (by simp)]
          exact hacc ▸ h
        | cons a as =>
          subst hacc
          have hlast : (a :: as).getLast? = some ((a :: as).getLast (by simp)) :=
            List.getLast?_eq_getLast _ _
          have hglc := h _ (List.getLast_mem (l := a :: as) (by simp))
          rw [npStep, if_neg (by decide), if_neg (by
              intro hor
              rcases hor with hA | hA | hA
              · exact hA rfl
              · simp at hA
              · rcases hA with ⟨_, hA2⟩
                rw [hlast] at hA2
                exact hglc.2.2 (Option.some.inj hA2)),
            if_pos (by simp)]
          intro x hx
          exact h x (mem_of_mem_dropLast _ x hx)
    · have hc : cleanComp c := ⟨fun hx => h1 (Or.inl hx),
        fun hx => h1 (Or.inr hx), h2⟩
      rw [npStep_push b acc c hc]
      cases b with
      | true =>
        intro x hx
        rcases List.mem_append.mp hx with hx1 | hx1
        · exact h x hx1
        · rw [List.mem_singleton.mp hx1]
          exact hc
      | false =>
        obtain ⟨k, M, rfl, hM⟩ := h
        refine ⟨k, M ++ [c], by rw [List.append_assoc], fun x hx => ?_⟩
        rcases List.mem_append.mp hx with hx1 | hx1
        · exact hM x hx1
        · rw [List.mem_singleton.mp hx1]
          exact hc

theorem npFold_normal (b : Bool) (cs : List (List Char)) :
    ∀ acc, NormalComps b acc →
      NormalComps b (List.foldl (npStep b) acc cs) := by
  induction cs with
  | nil => intro acc h; exact h
  | cons c r ih =>
    intro acc h
    rw [List.foldl_cons]
    exact ih _ (npStep_normal b acc c h)

theorem npFold_id (b : Bool) (L : List (List Char)) (h : NormalComps b L) :
    List.foldl (npStep b) [] L = L := by
  cases b with
  | true => rw [foldl_push_clean true L h []]; rfl
  | false =>
    obtain ⟨k, M, rfl, hM⟩ := h
    rw [List.foldl_append]
    have h0 : List.foldl (npStep false) [] (List.replicate k dotdotC) =
        List.replicate k dotdotC := by
      have := foldl_dd k 0
      simpa using this
    rw [h0, foldl_push_clean false M hM (List.replicate k dotdotC)]

theorem foldl_rep_nilcomp (b : Bool) (n : Nat) :
    ∀ acc, List.foldl (npStep b) acc
      (List.replicate n ([] : List Char)) = acc := by
  induction n with
  | zero => intro acc; rfl
  | succ n ih =>
    intro acc
    rw [List.replicate_succ, List.foldl_cons,
      npStep_skip b acc [] (Or.inl rfl), ih acc]

theorem normpath_eq (p : List Char) (hp : p ≠ []) :
    normpath p =
      if List.replicate (initialSlashes p) sep ++ joinComps (npFold p) = []
      then dotC
      else List.replicate (initialSlashes p) sep ++ joinComps (npFold p) := by
  rw [normpath, if_neg hp]
  rfl

theorem initialSlashes_le_two (p : List Char) : initialSlashes p ≤ 2 := by
  rw [initialSlashes]
  split_ifs <;> omega

theorem initialSlashes_rep (i : Nat) (hi : i ≤ 2) (h : Char) (hh : h ≠ sep)
    (t : List Char) :
    initialSlashes (List.replicate i sep ++ h :: t) = i := by
  interval_cases i
  · simp [initialSlashes, hh]
  · simp [initialSlashes, List.replicate, hh]
  · simp [initialSlashes, List.replicate, hh]

theorem splitSep_rep (i : Nat) (ys : List Char) :
    splitSep (List.replicate i sep ++ ys) =
      List.replicate i [] ++ splitSep ys := by
  induction i with
  | zero => rfl
  | succ n ih =>
    rw [List.replicate_succ, List.cons_append, splitSep, if_pos rfl, ih,
      List.replicate_succ, List.cons_append]

theorem normpath_shape (p : List Char) :
    normpath p = dotC ∨
    (NormalComps (initialSlashes p != 0) (npFold p) ∧
     (∀ l ∈ npFold p, sep ∉ l) ∧
     ¬(initialSlashes p = 0 ∧ npFold p = []) ∧
     normpath p = List.replicate (initialSlashes p) sep ++
       joinComps (npFold p)) := by
  by_cases hp : p = []
  · left
    rw [hp]
    rfl
  · rw [normpath_eq p hp]
    by_cases hr : List.replicate (initialSlashes p) sep ++
        joinComps (npFold p) = []
    · left
      rw [if_pos hr]
    · right
      rw [if_neg hr]
      refine ⟨npFold_normal _ _ [] (NormalComps_nil _), ?_, ?_, rfl⟩
      · intro l hl
        rcases npFold_subset _ _ [] l hl with h1 | h1
        · simp at h1
        · exact splitSep_no_sep p l h1
      · rintro ⟨h0, hL⟩
        apply hr
        rw [h0, hL]
        rfl

theorem normpath_fixed (i : Nat) (L : List (List Char))
    (hi : i ≤ 2) (hN : NormalComps (i != 0) L)
    (hsep : ∀ l ∈ L, sep ∉ l) (hne : ¬(i = 0 ∧ L = [])) :
    normpath (List.replicate i sep ++ joinComps L) =
      List.replicate i sep ++ joinComps L := by
  cases L with
  | nil =>
    have hi1 : 1 ≤ i := by
      rcases Nat.eq_zero_or_pos i with h0 | h0
      · exact absurd ⟨h0, rfl⟩ hne
      · exact h0
    interval_cases i
    · decide
    · decide
  | cons c1 L' =>
    have hc1ne : c1 ≠ [] :=
      NormalComps_not_nil_mem _ _ hN c1 (List.mem_cons_self c1 L')
    obtain ⟨ch, c1t, rfl⟩ : ∃ ch c1t, c1 = ch :: c1t := by
      cases c1 with
      | nil => exact absurd rfl hc1ne
      | cons x xs => exact ⟨x, xs, rfl⟩
    have hch : ch ≠ sep := by
      intro h
      exact hsep (ch :: c1t) (List.mem_cons_self _ L')
        (h ▸ List.mem_cons_self ch c1t)
    obtain ⟨jt, hjt⟩ : ∃ jt, joinComps ((ch :: c1t) :: L') = ch :: jt := by
      cases L' with
      | nil => exact ⟨c1t, rfl⟩
      | cons b r =>
        rw [joinComps_cons _ _ (by simp)]
        exact ⟨c1t ++ sep :: joinComps (b :: r), rfl⟩
    have hinit : initialSlashes (List.replicate i sep ++
        joinComps ((ch :: c1t) :: L')) = i := by
      rw [hjt]
      exact initialSlashes_rep i hi ch hch jt
    have hpne : List.replicate i sep ++ joinComps ((ch :: c1t) :: L') ≠ [] := by
      rw [hjt]
      simp
    rw [normpath_eq _ hpne]
    have hsplit : splitSep (List.replicate i sep ++
        joinComps ((ch :: c1t) :: L')) =
        List.replicate i [] ++ ((ch :: c1t) :: L') := by
      rw [splitSep_rep, splitSep_joinComps _ hsep (by simp)]
    have hfold : npFold (List.replicate i sep ++
        joinComps ((ch :: c1t) :: L')) = (ch :: c1t) :: L' := by
      rw [npFold, hinit, hsplit, List.foldl_append, foldl_rep_nilcomp,
        npFold_id _ _ hN]
    rw [hfold, hinit, if_neg (by rw [hjt]; simp)]

theorem normpath_normpath (p : List Char) :
    normpath (normpath p) = normpath p := by
  rcases normpath_shape p with h | ⟨hN, hsep, hne, heq⟩
  · rw [h]
    decide
  · rw [heq]
    exact normpath_fixed (initialSlashes p) (npFold p)
      (initialSlashes_le_two p) hN hsep hne

theorem normpath_ne_nil (p : List Char) : normpath p ≠ [] := by
  intro h
  rw [normpath] at h
  by_cases hp : p = []
  · rw [if_pos hp] at h
    exact absurd h (by decide)
  · rw [if_neg hp] at h
    simp only at h
    split at h
    · exact absurd h (by decide)
    · next hr => exact hr h

theorem gddn_eq (p : List Char) :
    get_devices_dir_normalized p =
      if lowerL (basenameL (normpath p)) = devicesC then normpath p
      else joinP (normpath p) devicesC := rfl

theorem getLast?_cons_ne_nil {α : Type} (a : α) (l : List α) (h : l ≠ []) :
    (a :: l).getLast? = l.getLast? := by
  cases l with
  | nil => exact absurd rfl h
  | cons b r => exact List.getLast?_cons_cons

/-- Appending the canonical folder name to any non-empty path puts it as
the last segment. -/
theorem basename_joinP_devices (q : List Char) (hq : q ≠ []) :
    basenameL (joinP q devicesC) = devicesC := by
  rw [joinP, if_neg (by decide)]
  by_cases hcase : q = [] ∨ q.getLast? = some sep
  · rw [if_pos hcase]
    have hgl : q.getLast? = some sep := by
      rcases hcase with h | h
      · exact absurd h hq
      · exact h
    have hgl2 : q.getLast hq = sep := by
      have h' := List.getLast?_eq_getLast q hq
      rw [h'] at hgl
      exact Option.some.inj hgl
    have hq2 : q = q.dropLast ++ [sep] := by
      rw [← hgl2]
      exact (List.dropLast_concat_getLast hq).symm
    conv_lhs => rw [hq2]
    rw [List.append_assoc]
    exact basename_append q.dropLast devicesC (by decide)
  · rw [if_neg hcase]
    exact basename_append q devicesC (by decide)

/-- Claim C2, third part (amended to case-insensitive): after normalization the
path's last segment always spells the canonical device-folder name
case-insensitively. -/
theorem gddn_basename (p : List Char) :
    lowerL (basenameL (get_devices_dir_normalized p)) = devicesC := by
  rw [gddn_eq]
  by_cases h : lowerL (basenameL (normpath p)) = devicesC
  · rw [if_pos h]
    exact h
  · rw [if_neg h, basename_joinP_devices _ (normpath_ne_nil p)]
    decide

theorem joinComps_getLast_ne_sep (L : List (List Char)) :
    L ≠ [] → (∀ l ∈ L, sep ∉ l) → ([] ∉ L) →
    ∀ x, (joinComps L).getLast? = some x → x ≠ sep := by
  induction L with
  | nil =>
    intro h
    exact absurd rfl h
  | cons a r ih =>
    intro _ hsep hnil x hx
    cases r with
    | nil =>
      have hja : joinComps [a] = a := rfl
      rw [hja] at hx
      have ha : a ≠ [] := fun h => hnil (h ▸ List.mem_cons_self a [])
      have hxa : x ∈ a := by
        have h' := List.getLast?_eq_getLast a ha
        rw [h'] at hx
        rw [← Option.some.inj hx]
        exact List.getLast_mem ha
      exact fun hc => hsep a (List.mem_cons_self a []) (hc ▸ hxa)
    | cons b r' =>
      rw [joinComps_cons a (b :: r') (by simp)] at hx
      have hbr_ne : joinComps (b :: r') ≠ [] :=
        joinComps_ne_nil _ (by simp)
          (fun hm => hnil (List.mem_cons_of_mem a hm))
      rw [List.getLast?_append,
        getLast?_cons_ne_nil sep _ hbr_ne,
        List.getLast?_eq_getLast _ hbr_ne, Option.or_some] at hx
      have hx' : (joinComps (b :: r')).getLast? = some x := by
        rw [List.getLast?_eq_getLast _ hbr_ne]
        exact hx
      exact ih (by simp) (fun l hl => hsep l (List.mem_cons_of_mem a hl))
        (fun hm => hnil (List.mem_cons_of_mem a hm)) x hx'

theorem NormalComps_concat (b : Bool) (L : List (List Char)) (d : List Char)
    (h : NormalComps b L) (hd : cleanComp d) : NormalComps b (L ++ [d]) := by
  cases b with
  | true =>
    intro x hx
    rcases List.mem_append.mp hx with hx1 | hx1
    · exact h x hx1
    · rw [List.mem_singleton.mp hx1]
      exact hd
  | false =>
    obtain ⟨k, M, rfl, hM⟩ := h
    refine ⟨k, M ++ [d], by rw [List.append_assoc], fun x hx => ?_⟩
    rcases List.mem_append.mp hx with hx1 | hx1
    · exact hM x hx1
    · rw [List.mem_singleton.mp hx1]
      exact hd

theorem initialSlashes_take3 (p q : List Char) (h : p.take 3 = q.take 3) :
    initialSlashes p = initialSlashes q := by
  have h1 : p.take 1 = q.take 1 := by
    have h' := congrArg (List.take 1) h
    rw [List.take_take, List.take_take] at h'
    simpa using h'
  have h2 : p.take 2 = q.take 2 := by
    have h' := congrArg (List.take 2) h
    rw [List.take_take, List.take_take] at h'
    simpa using h'
  rw [initialSlashes, initialSlashes, h1, h2, h]

theorem initialSlashes_joinP (root : List Char) (hne : root ≠ []) :
    initialSlashes (joinP root devicesC) = initialSlashes root := by
  rw [joinP, if_neg (by decide : ¬ (devicesC.take 1 = [sep]))]
  by_cases h2 : root = [] ∨ root.getLast? = some sep
  · rw [if_pos h2]
    rcases root with _ | ⟨c1, _ | ⟨c2, _ | ⟨c3, t⟩⟩⟩
    · exact absurd rfl hne
    · have hc1 : c1 = sep := by
        rcases h2 with h | h
        · simp at h
        · simpa using h
      subst hc1
      decide
    · have hc2 : c2 = sep := by
        rcases h2 with h | h
        · simp at h
        · simpa using h
      subst hc2
      by_cases hc1 : c1 = sep
      · subst hc1
        decide
      · simp [initialSlashes, hc1]
    · apply initialSlashes_take3
      rw [List.take_append_of_le_length (by simp)]
  · rw [if_neg h2]
    rcases root with _ | ⟨c1, _ | ⟨c2, _ | ⟨c3, t⟩⟩⟩
    · exact absurd rfl hne
    · have hc1 : c1 ≠ sep := by
        intro h
        exact h2 (Or.inr (by simp [h]))
      simp [initialSlashes, hc1]
    · have hc2 : c2 ≠ sep := by
        intro h
        exact h2 (Or.inr (by simp [h]))
      by_cases hc1 : c1 = sep
      · subst hc1
        simp [initialSlashes, hc2]
      · simp [initialSlashes, hc1]
    · apply initialSlashes_take3
      rw [List.take_append_of_le_length (by simp)]

theorem joinP_shape_eq (p : List Char) (hp : normpath p ≠ dotC) :
    joinP (normpath p) devicesC =
      List.replicate (initialSlashes p) sep ++
        joinComps (npFold p ++ [devicesC]) := by
  rcases normpath_shape p with hdot | ⟨hN, hsep, hne, heq⟩
  · exact absurd hdot hp
  · have hmemne := NormalComps_not_nil_mem _ _ hN
    cases hL : npFold p with
    | nil =>
      have hi1 : 1 ≤ initialSlashes p := by
        rcases Nat.eq_zero_or_pos (initialSlashes p) with h0 | h0
        · exact absurd ⟨h0, hL⟩ hne
        · exact h0
      have hi2 := initialSlashes_le_two p
      rw [heq, hL]
      set i := initialSlashes p with hidef
      interval_cases i
      · decide
      · decide
    | cons c1 L' =>
      rw [hL] at hsep hmemne
      rw [heq, hL]
      have hjoin_ne : joinComps (c1 :: L') ≠ [] :=
        joinComps_ne_nil _ (by simp) (fun hm => hmemne [] hm rfl)
      have hqlast : ∀ x, (List.replicate (initialSlashes p) sep ++
          joinComps (c1 :: L')).getLast? = some x → x ≠ sep := by
        intro x hx
        rw [List.getLast?_append, List.getLast?_eq_getLast _ hjoin_ne,
          Option.or_some] at hx
        exact joinComps_getLast_ne_sep (c1 :: L') (by simp) hsep
          (fun hm => hmemne [] hm rfl) x
          (by rw [List.getLast?_eq_getLast _ hjoin_ne]; exact hx)
      have hq_ne : List.replicate (initialSlashes p) sep ++
          joinComps (c1 :: L') ≠ [] := by
        intro hcontra
        exact hjoin_ne (List.append_eq_nil.mp hcontra).2
      rw [joinP, if_neg (by decide), if_neg (by
        rintro (h0 | hlast)
        · exact hq_ne h0
        · exact hqlast sep hlast rfl)]
      rw [List.append_assoc, ← joinComps_concat (c1 :: L') devicesC (by simp)]

theorem joinP_normpath_fixed (p : List Char) (hp : normpath p ≠ dotC) :
    normpath (joinP (normpath p) devicesC) = joinP (normpath p) devicesC := by
  rw [joinP_shape_eq p hp]
  rcases normpath_shape p with hdot | ⟨hN, hsep, hne, heq⟩
  · exact absurd hdot hp
  · refine normpath_fixed (initialSlashes p) (npFold p ++ [devicesC])
      (initialSlashes_le_two p)
      (NormalComps_concat _ _ _ hN ⟨by decide, by decide, by decide⟩)
      (fun l hl => ?_) (by
        rintro ⟨h0, hL⟩
        simp at hL)
    rcases List.mem_append.mp hl with h | h
    · exact hsep l h
    · rw [List.mem_singleton.mp h]
      decide

/-- Claim C2, first part (amended with the hypothesis that the input does not
normalize to "."): device-directory normalization is idempotent. -/
theorem gddn_idem (p : List Char) (hp : normpath p ≠ dotC) :
    get_devices_dir_normalized (get_devices_dir_normalized p) =
      get_devices_dir_normalized p := by
  rw [gddn_eq p]
  by_cases h : lowerL (basenameL (normpath p)) = devicesC
  · rw [if_pos h, gddn_eq (normpath p), normpath_normpath p, if_pos h]
  · rw [if_neg h, gddn_eq (joinP (normpath p) devicesC),
      joinP_normpath_fixed p hp,
      basename_joinP_devices _ (normpath_ne_nil p),
      if_pos (by decide)]

theorem normpath_joinP_root (root : List Char) (h1 : normpath root ≠ dotC) :
    normpath (joinP root devicesC) = joinP (normpath root) devicesC := by
  have hroot_ne : root ≠ [] := fun h => h1 (by rw [h]; rfl)
  rcases normpath_shape root with hdot | ⟨hN, hsep, hne, heq⟩
  · exact absurd hdot h1
  · have hinitj := initialSlashes_joinP root hroot_ne
    have hfoldj : npFold (joinP root devicesC) =
        npFold root ++ [devicesC] := by
      rw [npFold, hinitj, joinP, if_neg (by decide)]
      by_cases hcase : root = [] ∨ root.getLast? = some sep
      · rw [if_pos hcase]
        have hgl : root.getLast? = some sep := by
          rcases hcase with h | h
          · exact absurd h hroot_ne
          · exact h
        have hgl2 : root.getLast hroot_ne = sep := by
          have h' := List.getLast?_eq_getLast root hroot_ne
          rw [h'] at hgl
          exact Option.some.inj hgl
        have hq2 : root = root.dropLast ++ [sep] := by
          rw [← hgl2]
          exact (List.dropLast_concat_getLast hroot_ne).symm
        have e2 : splitSep (root ++ devicesC) =
            splitSep root.dropLast ++ [devicesC] := by
          conv_lhs => rw [hq2]
          rw [List.append_assoc,
            show ([sep] ++ devicesC : List Char) = sep :: devicesC from rfl,
            splitSep_append, splitSep_single devicesC (by decide)]
        have e3 : splitSep root = splitSep root.dropLast ++ [[]] := by
          conv_lhs => rw [hq2]
          rw [show (root.dropLast ++ [sep] : List Char) =
            root.dropLast ++ sep :: [] from rfl, splitSep_append]
          rfl
        have e4 : npFold root = List.foldl
            (npStep (initialSlashes root != 0)) []
            (splitSep root.dropLast) := by
          rw [npFold, e3, List.foldl_append]
          simp only [List.foldl_cons, List.foldl_nil]
          rw [npStep_skip _ _ _ (Or.inl rfl)]
        rw [e2, List.foldl_append]
        simp only [List.foldl_cons, List.foldl_nil]
        rw [← e4, npStep_push _ _ _ ⟨by decide, by decide, by decide⟩]
      · rw [if_neg hcase,
          show (root ++ sep :: devicesC : List Char) =
            root ++ sep :: devicesC from rfl,
          splitSep_append, splitSep_single devicesC (by decide),
          List.foldl_append]
        simp only [List.foldl_cons, List.foldl_nil]
        rw [npStep_push _ _ _ ⟨by decide, by decide, by decide⟩]
        rfl
    have hj_ne : joinP root devicesC ≠ [] := by
      rw [joinP, if_neg (by decide)]
      by_cases hcase : root = [] ∨ root.getLast? = some sep
      · rw [if_pos hcase]
        intro hcontra
        exact (by decide : devicesC ≠ [])
          (List.append_eq_nil.mp hcontra).2
      · rw [if_neg hcase]
        intro hcontra
        simp at hcontra
    have hne2 : List.replicate (initialSlashes root) sep ++
        joinComps (npFold root ++ [devicesC]) ≠ [] := by
      intro hcontra
      have hjc := (List.append_eq_nil.mp hcontra).2
      refine joinComps_ne_nil (npFold root ++ [devicesC]) (by simp)
        (fun hm => ?_) hjc
      rcases List.mem_append.mp hm with h | h
      · exact NormalComps_not_nil_mem _ _ hN [] h rfl
      · exact (by decide : ([] : List Char) ≠ devicesC)
          (List.mem_singleton.mp h)
    rw [normpath_eq _ hj_ne, hinitj, hfoldj, joinP_shape_eq root h1,
      if_neg hne2]

/-- Claim C2, second part (amended with the hypotheses that the root does not
normalize to "." and does not itself already end in a case-variant of the
canonical folder name): normalizing the root and normalizing
root/devices-folder agree. -/
theorem gddn_join_root (root : List Char) (h1 : normpath root ≠ dotC)
    (h2 : lowerL (basenameL (normpath root)) ≠ devicesC) :
    get_devices_dir_normalized root =
      get_devices_dir_normalized (joinP root devicesC) := by
  rw [gddn_eq root, if_neg h2, gddn_eq (joinP root devicesC),
    normpath_joinP_root root h1,
    basename_joinP_devices _ (normpath_ne_nil root), if_pos (by decide)]

/-- Claim C2 counterexample: at the input "." normalization is not idempotent
(normalizing "." gives "./devices" but normalizing "./devices" gives
"devices"), normalizing "." and "./devices" disagree for the same reason,
and at "a/DEVICES" the normalized path's last segment is "DEVICES", not
literally the canonical folder name "devices". -/
theorem C2_counterexample :
    get_devices_dir_normalized (get_devices_dir_normalized ".".data) ≠
      get_devices_dir_normalized ".".data ∧
    get_devices_dir_normalized ".".data ≠
      get_devices_dir_normalized (joinP ".".data devicesC) ∧
    basenameL (get_devices_dir_normalized "a/DEVICES".data) ≠ devicesC := by
  refine ⟨by decide, by decide, by decide⟩

/-- Claim C2 amended: for every input path whose `normpath` is not ".",
device-directory normalization is idempotent; for every root whose
`normpath` is not "." and whose normalized basename does not already spell
"devices" case-insensitively, normalizing the root and normalizing
root-joined-with-"devices" yield the same result; and for every input path
the normalized result's last segment spells the canonical device-folder
name case-insensitively (it is literally "devices" whenever the segment was
appended; a pre-existing case variant such as "DEVICES" is preserved). -/
theorem C2_normalization_amended (p root : List Char)
    (hp : normpath p ≠ dotC) (h1 : normpath root ≠ dotC)
    (h2 : lowerL (basenameL (normpath root)) ≠ devicesC) :
    get_devices_dir_normalized (get_devices_dir_normalized p) =
      get_devices_dir_normalized p ∧
    get_devices_dir_normalized root =
      get_devices_dir_normalized (joinP root devicesC) ∧
    lowerL (basenameL (get_devices_dir_normalized p)) = devicesC :=
  ⟨gddn_idem p hp, gddn_join_root root h1 h2, gddn_basename p⟩

/-- Witness for C2 at concrete paths. -/
theorem C2_normalization_witness :
    normpath "a/b".data ≠ dotC ∧
    normpath "/a".data ≠ dotC ∧
    lowerL (basenameL (normpath "/a".data)) ≠ devicesC ∧
    (get_devices_dir_normalized (get_devices_dir_normalized "a/b".data) =
      get_devices_dir_normalized "a/b".data ∧
    get_devices_dir_normalized "/a".data =
      get_devices_dir_normalized (joinP "/a".data devicesC) ∧
    lowerL (basenameL (get_devices_dir_normalized "a/b".data)) = devicesC) :=
  ⟨by decide, by decide, by decide,
    C2_normalization_amended "a/b".data "/a".data (by decide) (by decide)
      (by decide)⟩

end RetruxShelfEye
